import Mathlib

/-! init.cpp: environment vector, property waits, early mount, policy selection,
security hardening, kernel command line and the supervisor loop.

A shallow embedding of parts of `init/init.cpp`.  Global variables of the
program become fields of explicit state values, C strings become lists of
characters (the characters before the terminating NUL), and calls into other
libraries become parameters of the embedded functions.
-/

namespace Init

/-! ## C strings -/

/-- A C string, given by the characters that precede its terminating NUL. -/
abbrev CStr := List Char

/-- The libc function `strlen`. -/
def strlen (s : CStr) : Nat := s.length

/-- The libc function `strcspn`: length of the longest initial segment of `s`
that has no character of `reject`. -/
def strcspn (s reject : CStr) : Nat :=
  (s.takeWhile (fun c => !reject.contains c)).length

/-- The libc function `strncmp`, up to the sign of a non-zero result: `0` when
the first `n` characters of the two strings agree, `1` otherwise. -/
def strncmp (a b : CStr) (n : Nat) : Int :=
  if a.take n = b.take n then 0 else 1

/-! ## The environment vector (`ENV`, `add_environment`) -/

/-- The type of `const char *ENV[32]`: one optional string per slot, `none`
being the `NULL` pointer. -/
abbrev Env := List (Option CStr)

/-- The global `ENV` at program start: 32 `NULL` slots. -/
def ENV : Env := List.replicate 32 none

/-- The macro `arraysize`. -/
def arraysize (env : Env) : Nat := env.length

/-- The result of `asprintf(&entry, "%s=%s", key, val)`. -/
def asprintf_entry (key val : CStr) : CStr := key ++ '=' :: val

/-- The test of `add_environment` that decides whether the entry `e` of a slot
is an existing entry for `key`. -/
def entry_matches (key e : CStr) : Bool :=
  let entry_key_len := strcspn e ['=']
  decide (entry_key_len = strlen key) && decide (strncmp e key entry_key_len = 0)

/-- The `for` loop of `add_environment`, started at slot `n` with `todo`
iterations left.  It returns the value returned by `add_environment` and the
vector it leaves behind. -/
def add_environment_loop (key val : CStr) : Nat → Nat → Env → Int × Env
  | 0, _, env => (-1, env)
  | todo + 1, n, env =>
    -- Delete any existing entry for this key
    let env1 : Env :=
      match env.getD n none with
      | some e => if entry_matches key e then env.set n none else env
      | none => env
    -- Add entry if a free slot is available
    if env1.getD n none = none then
      (0, env1.set n (some (asprintf_entry key val)))
    else
      add_environment_loop key val todo (n + 1) env1

/-- The function `add_environment`: adds "key=value" to the environment `env`.
The last slot is reserved to terminate the list, so the loop visits the slots
`0 .. arraysize(ENV) - 2`. -/
def add_environment (key val : CStr) (env : Env) : Int × Env :=
  add_environment_loop key val (arraysize env - 1) 0 env

/-- The environment left by a series of `add_environment` calls, given as
`(key, val)` pairs in call order, started from `env`. -/
def add_environments (calls : List (CStr × CStr)) (env : Env) : Env :=
  calls.foldl (fun e c => (add_environment c.1 c.2 e).2) env

/-- The key of a stored entry: its text before the first `=`. -/
def entry_key (e : CStr) : CStr := e.takeWhile (fun c => c != '=')

/-- The stored entries of a vector, in slot order. -/
def stored (env : Env) : List CStr := env.filterMap id

/-- The keys of the stored entries, in slot order. -/
def stored_keys (env : Env) : List CStr := (stored env).map entry_key

/-- The distinct keys of a key sequence, in the order of their first
occurrence. -/
def first_added : List CStr → List CStr
  | [] => []
  | k :: ks => k :: (first_added ks).filter (fun x => x != k)

/-- The vector whose stored entries are `es`, packed from slot 0, every other
slot being `NULL`. -/
def env_layout (es : List CStr) : Env :=
  es.map some ++ List.replicate (32 - es.length) none

/-- The effect of one `add_environment` call on the list of stored keys, for a
key without `=`: a key already present changes nothing, a new key is appended
while fewer than 31 keys are stored. -/
def keys_step (ks : List CStr) (k : CStr) : List CStr :=
  if k ∈ ks then ks else if ks.length < 31 then ks ++ [k] else ks

/-- A series of 31 calls that fills the vector: the keys `A` and `A=B`, then
the 29 one-letter keys `b`, `c`, ... -/
def filling_calls : List (CStr × CStr) :=
  ("A".toList, "1".toList) :: ("A=B".toList, "c".toList) ::
    (List.range 29).map (fun i => ([Char.ofNat (98 + i)], []))

/-! ## Wait state and property triggers -/

/-- The class `Timer`: its start point. -/
structure Timer where
  start : Nat
deriving DecidableEq, Repr

/-- The global variables of `init.cpp` that the wait and trigger functions
read and write.  `queued_property_triggers` records, in call order, the
arguments of the calls of `ActionManager::QueuePropertyTrigger` made so far. -/
structure InitState where
  property_triggers_enabled : Int
  waiting_for_exec : Option Timer
  waiting_for_prop : Option Timer
  wait_prop_name : CStr
  wait_prop_value : CStr
  queued_property_triggers : List (CStr × CStr)
deriving DecidableEq, Repr

/-- The values of the globals at program start. -/
def InitState.initial : InitState :=
  { property_triggers_enabled := 0
    waiting_for_exec := none
    waiting_for_prop := none
    wait_prop_name := []
    wait_prop_value := []
    queued_property_triggers := [] }

/-- The function `start_waiting_for_exec`; `now` is the time read by
`new Timer()`. -/
def start_waiting_for_exec (now : Nat) (s : InitState) : Bool × InitState :=
  if s.waiting_for_exec.isSome then
    (false, s)
  else
    (true, { s with waiting_for_exec := some ⟨now⟩ })

/-- The function `stop_waiting_for_exec`. -/
def stop_waiting_for_exec (s : InitState) : InitState :=
  if s.waiting_for_exec.isSome then
    { s with waiting_for_exec := none }
  else
    s

/-- The function `start_waiting_for_property`; `property_get` is the property
store read by the call and `now` the time read by `new Timer()`. -/
def start_waiting_for_property (property_get : CStr → CStr) (now : Nat)
    (name value : CStr) (s : InitState) : Bool × InitState :=
  if s.waiting_for_prop.isSome then
    (false, s)
  else if property_get name ≠ value then
    -- Current property value is not equal to expected value
    (true, { s with wait_prop_name := name
                    wait_prop_value := value
                    waiting_for_prop := some ⟨now⟩ })
  else
    (true, s)

/-- The function `property_changed`. -/
def property_changed (name value : CStr) (s : InitState) : InitState :=
  let s1 : InitState :=
    if s.property_triggers_enabled ≠ 0 then
      { s with queued_property_triggers := s.queued_property_triggers ++ [(name, value)] }
    else
      s
  if s1.waiting_for_prop.isSome then
    if s1.wait_prop_name = name ∧ s1.wait_prop_value = value then
      { s1 with wait_prop_name := []
                wait_prop_value := []
                waiting_for_prop := none }
    else
      s1
  else
    s1

/-- The function `property_enable_triggers_action`. -/
def property_enable_triggers_action (_args : List CStr) (s : InitState) : Int × InitState :=
  (0, { s with property_triggers_enabled := 1 })

/-- The state after a series of property broadcasts, given as `(name, value)`
pairs in order. -/
def property_broadcasts (bs : List (CStr × CStr)) (s : InitState) : InitState :=
  bs.foldl (fun t b => property_changed b.1 b.2 t) s

/-- A call of one of the functions of `init.cpp` that write the globals of
`InitState`.  A `start_waiting_for_property` call carries the live value
`cur` of its property and the time `now` of its timer. -/
inductive InitCall where
  | start_waiting_for_exec (now : Nat)
  | stop_waiting_for_exec
  | start_waiting_for_property (cur : CStr) (now : Nat) (name value : CStr)
  | property_changed (name value : CStr)
  | property_enable_triggers_action (args : List CStr)
deriving DecidableEq, Repr

/-- The state after one call. -/
def InitCall.run : InitCall → InitState → InitState
  | .start_waiting_for_exec now, s => (Init.start_waiting_for_exec now s).2
  | .stop_waiting_for_exec, s => Init.stop_waiting_for_exec s
  | .start_waiting_for_property cur now name value, s =>
    (Init.start_waiting_for_property (fun _ => cur) now name value s).2
  | .property_changed name value, s => Init.property_changed name value s
  | .property_enable_triggers_action args, s => (Init.property_enable_triggers_action args s).2

/-- The state after a series of calls, started from `s`. -/
def run_calls (cs : List InitCall) (s : InitState) : InitState :=
  cs.foldl (fun t c => c.run t) s

/-- Whether a call is a call of `property_enable_triggers_action`. -/
def InitCall.is_enable : InitCall → Bool
  | .property_enable_triggers_action _ => true
  | _ => false

/-! ## Early mount: `get_early_partitions` -/

/-- The libc function `basename` of `libgen.h`: the last component of a path,
`.` for the empty path and `/` for a path of slashes only. -/
def basename (path : CStr) : CStr :=
  if path = [] then ['.']
  else
    let trimmed := path.reverse.dropWhile (fun c => c == '/')
    if trimmed = [] then ['/']
    else (trimmed.takeWhile (fun c => c != '/')).reverse

/-- The fields of `struct fstab_rec` that `init.cpp` reads; `verity_loc` is
`none` for a `NULL` pointer. -/
structure fstab_rec where
  blk_device : CStr
  mount_point : CStr
  fs_mgr_flags : Nat
  verity_loc : Option CStr
deriving DecidableEq, Repr

/-- The two flag tests of `fs_mgr` that `get_early_partitions` calls. -/
structure FsMgr where
  fs_mgr_is_verifyatboot : fstab_rec → Bool
  fs_mgr_is_verified : fstab_rec → Bool

/-- What a call of `get_early_partitions` leaves: its return value and its two
output arguments. -/
structure EarlyPartitions where
  ret : Bool
  out_partitions : Finset CStr
  out_need_verity : Bool

/-- The first `for` loop of `get_early_partitions`, entered with the current
`meta_partition` and `*out_need_verity`; returns whether the loop ran through
all rows (`false` for a `return false`) and the two variables. -/
def get_early_partitions_check (fm : FsMgr) :
    List fstab_rec → CStr → Bool → Bool × CStr × Bool
  | [], meta_partition, need_verity => (true, meta_partition, need_verity)
  | r :: rs, meta_partition, need_verity =>
    -- don't allow verifyatboot for early mounted partitions
    if fm.fs_mgr_is_verifyatboot r then
      (false, meta_partition, need_verity)
    else
      -- check for verified partitions
      let need_verity1 := if fm.fs_mgr_is_verified r then true else need_verity
      match r.verity_loc with
      | some loc =>
        if meta_partition ≠ [] then
          (false, meta_partition, need_verity1)
        else
          get_early_partitions_check fm rs (basename loc) need_verity1
      | none => get_early_partitions_check fm rs meta_partition need_verity1

/-- The function `get_early_partitions`. -/
def get_early_partitions (fm : FsMgr) (early_fstab_recs : List fstab_rec) : EarlyPartitions :=
  match get_early_partitions_check fm early_fstab_recs [] false with
  | (false, _, need_verity) =>
    { ret := false, out_partitions := ∅, out_need_verity := need_verity }
  | (true, meta_partition, need_verity) =>
    -- includes those early mount partitions and meta_partition (if any)
    let parts : Finset CStr :=
      early_fstab_recs.foldl (fun s r => insert (basename r.blk_device) s) ∅
    let parts1 : Finset CStr :=
      if meta_partition ≠ [] then insert meta_partition parts else parts
    { ret := true, out_partitions := parts1, out_need_verity := need_verity }

/-- A flag reader used in the examples: bit 0 of `fs_mgr_flags` marks a
verified row and bit 1 a row to verify at boot. -/
def example_fs_mgr : FsMgr :=
  { fs_mgr_is_verifyatboot := fun r => r.fs_mgr_flags / 2 % 2 == 1
    fs_mgr_is_verified := fun r => r.fs_mgr_flags % 2 == 1 }

/-- The rows of scenario E4: `/vendor` on `sda1`, `/system` on `sda2` verified,
`/odm` on `sda3` with its verity metadata on `/dev/block/sda4`. -/
def example_rows : List fstab_rec :=
  [ { blk_device := "/dev/block/sda1".toList, mount_point := "/vendor".toList,
      fs_mgr_flags := 0, verity_loc := none },
    { blk_device := "/dev/block/sda2".toList, mount_point := "/system".toList,
      fs_mgr_flags := 1, verity_loc := none },
    { blk_device := "/dev/block/sda3".toList, mount_point := "/odm".toList,
      fs_mgr_flags := 0, verity_loc := some "/dev/block/sda4".toList } ]

/-- Two verified rows, `/system` and `/vendor`, that keep their verity metadata
on the same partition `/dev/block/sda4`. -/
def shared_meta_rows : List fstab_rec :=
  [ { blk_device := "/dev/block/sda2".toList, mount_point := "/system".toList,
      fs_mgr_flags := 1, verity_loc := some "/dev/block/sda4".toList },
    { blk_device := "/dev/block/sda1".toList, mount_point := "/vendor".toList,
      fs_mgr_flags := 1, verity_loc := some "/dev/block/sda4".toList } ]

/-! ## SELinux policy selection -/

/-- The files and library calls that the policy loader consults. -/
structure PolicyWorld where
  /-- Whether `access(path, R_OK)` succeeds. -/
  access_r : CStr → Bool
  /-- `android::base::ReadFileToString`: the content, `none` on failure. -/
  ReadFileToString : CStr → Option CStr
  /-- Whether `open(path, O_RDONLY | O_CLOEXEC | O_BINARY)` succeeds. -/
  open_rdonly : CStr → Bool
  /-- The value of `selinux_android_load_policy_from_fd` on the named file. -/
  selinux_android_load_policy_from_fd : CStr → Int
  /-- The value of `security_policyvers()`. -/
  security_policyvers : Int
  /-- `mkostemp` on a template: the name of the file created, `none` on failure. -/
  mkostemp : CStr → Option CStr
  /-- `fork_execve_and_wait_for_completion` on an argument vector. -/
  fork_execve_and_wait_for_completion : List CStr → Bool
  /-- The value of `selinux_android_load_policy()`. -/
  selinux_android_load_policy : Int

/-- The calls by which the policy loader acts on the system, as recorded in
call order. -/
inductive PolicyCall where
  | load_policy_from_fd (file : CStr)
  | security_policyvers
  | mkostemp (template : CStr)
  | fork_execve (args : List CStr)
  | unlink (file : CStr)
  | load_policy
deriving DecidableEq, Repr

/-- The constant `precompiled_sepolicy`. -/
def precompiled_sepolicy : CStr := "/vendor/etc/selinux/precompiled_sepolicy".toList

/-- The path of the digest of the platform policy on the system image. -/
def plat_sepolicy_cil_sha256 : CStr := "/system/etc/selinux/plat_sepolicy.cil.sha256".toList

/-- The path of the platform digest recorded with the precompiled policy. -/
def precompiled_sepolicy_plat_sha256 : CStr :=
  "/vendor/etc/selinux/precompiled_sepolicy.plat.sha256".toList

/-- The constant `plat_policy_cil_file`. -/
def plat_policy_cil_file : CStr := "/system/etc/selinux/plat_sepolicy.cil".toList

/-- The first line of a text, as read by `std::getline`. -/
def first_line (contents : CStr) : CStr := contents.takeWhile (fun c => c != '\n')

/-- The function `read_first_line`: its return value and `*line`. -/
def read_first_line (w : PolicyWorld) (file : CStr) : Bool × CStr :=
  match w.ReadFileToString file with
  | none => (false, [])
  | some contents => (true, first_line contents)

/-- The function `selinux_find_precompiled_split_policy`: its return value and
`*file`. -/
def selinux_find_precompiled_split_policy (w : PolicyWorld) : Bool × CStr :=
  if !w.access_r precompiled_sepolicy then
    (false, [])
  else
    match read_first_line w plat_sepolicy_cil_sha256 with
    | (false, _) => (false, [])
    | (true, actual_plat_id) =>
      match read_first_line w precompiled_sepolicy_plat_sha256 with
      | (false, _) => (false, [])
      | (true, precompiled_plat_id) =>
        if actual_plat_id = [] ∨ actual_plat_id ≠ precompiled_plat_id then
          (false, [])
        else
          (true, precompiled_sepolicy)

/-- The function `selinux_is_split_policy_device`. -/
def selinux_is_split_policy_device (w : PolicyWorld) : Bool :=
  w.access_r plat_policy_cil_file

/-- The decimal text of an integer, as `std::to_string` gives it. -/
def to_string (v : Int) : CStr := (toString v).toList

/-- The argument vector `compile_args` of `selinux_load_split_policy`. -/
def compile_args (max_policy_version : Int) (compiled_sepolicy : CStr) : List CStr :=
  [ "/system/bin/secilc".toList,
    plat_policy_cil_file,
    "-M".toList, "true".toList,
    "-c".toList, to_string max_policy_version,
    "/vendor/etc/selinux/mapping_sepolicy.cil".toList,
    "/vendor/etc/selinux/nonplat_sepolicy.cil".toList,
    "-o".toList, compiled_sepolicy,
    "-f".toList, "/sys/fs/selinux/null".toList ]

/-- The part of `selinux_load_split_policy` that follows the comment "No
suitable precompiled policy could be loaded": compile the split policy and
load the result.  Returns the return value and the calls made. -/
def selinux_load_split_policy_compile (w : PolicyWorld) : Bool × List PolicyCall :=
  -- Determine the highest policy language version supported by the kernel
  let max_policy_version := w.security_policyvers
  if max_policy_version = -1 then
    (false, [.security_policyvers])
  else
    let template : CStr := "/dev/sepolicy.XXXXXX".toList
    match w.mkostemp template with
    | none => (false, [.security_policyvers, .mkostemp template])
    | some compiled_sepolicy =>
      let args := compile_args max_policy_version compiled_sepolicy
      if !w.fork_execve_and_wait_for_completion args then
        (false, [.security_policyvers, .mkostemp template, .fork_execve args,
                 .unlink compiled_sepolicy])
      else if w.selinux_android_load_policy_from_fd compiled_sepolicy < 0 then
        (false, [.security_policyvers, .mkostemp template, .fork_execve args,
                 .unlink compiled_sepolicy, .load_policy_from_fd compiled_sepolicy])
      else
        (true, [.security_policyvers, .mkostemp template, .fork_execve args,
                .unlink compiled_sepolicy, .load_policy_from_fd compiled_sepolicy])

/-- The function `selinux_load_split_policy`: its return value and the calls
made. -/
def selinux_load_split_policy (w : PolicyWorld) : Bool × List PolicyCall :=
  match selinux_find_precompiled_split_policy w with
  | (true, precompiled_sepolicy_file) =>
    if w.open_rdonly precompiled_sepolicy_file then
      if w.selinux_android_load_policy_from_fd precompiled_sepolicy_file < 0 then
        (false, [.load_policy_from_fd precompiled_sepolicy_file])
      else
        (true, [.load_policy_from_fd precompiled_sepolicy_file])
    else
      selinux_load_split_policy_compile w
  | (false, _) => selinux_load_split_policy_compile w

/-- The function `selinux_load_monolithic_policy`. -/
def selinux_load_monolithic_policy (w : PolicyWorld) : Bool × List PolicyCall :=
  if w.selinux_android_load_policy < 0 then
    (false, [.load_policy])
  else
    (true, [.load_policy])

/-- The function `selinux_load_policy`: its return value and the calls made. -/
def selinux_load_policy (w : PolicyWorld) : Bool × List PolicyCall :=
  if selinux_is_split_policy_device w then selinux_load_split_policy w
  else selinux_load_monolithic_policy w

/-- A system without `/system/etc/selinux/plat_sepolicy.cil` on which
`/vendor/etc/selinux/precompiled_sepolicy` is readable and both digest files
hold the line `abc`; every load succeeds. -/
def world_without_cil : PolicyWorld :=
  { access_r := fun path => path == precompiled_sepolicy
    ReadFileToString := fun path =>
      if path = plat_sepolicy_cil_sha256 ∨ path = precompiled_sepolicy_plat_sha256 then
        some "abc\n".toList
      else none
    open_rdonly := fun path => path == precompiled_sepolicy
    selinux_android_load_policy_from_fd := fun _ => 0
    security_policyvers := 30
    mkostemp := fun _ => some "/dev/sepolicy.a1b2c3".toList
    fork_execve_and_wait_for_completion := fun _ => true
    selinux_android_load_policy := 0 }

/-- The system of `world_without_cil` with the platform CIL file present. -/
def world_with_cil : PolicyWorld :=
  { world_without_cil with
    access_r := fun path => path == precompiled_sepolicy || path == plat_policy_cil_file }

/-- A system with the platform CIL file and a precompiled policy whose recorded
platform digest `abd` differs from the digest `abc` of the system image. -/
def world_with_stale_precompiled : PolicyWorld :=
  { world_with_cil with
    ReadFileToString := fun path =>
      if path = plat_sepolicy_cil_sha256 then some "abc\n".toList
      else if path = precompiled_sepolicy_plat_sha256 then some "abd\n".toList
      else none }

/-! ## Security hardening: `set_highest_available_option_value` -/

/-- The least value of the type `int` (32 bits). -/
def INT_MIN : Int := -2147483648

/-- The greatest value of the type `int` (32 bits). -/
def INT_MAX : Int := 2147483647

/-- The value of type `int` that a 32-bit two's complement machine keeps of an
integer result: its residue modulo `2^32` in the range `INT_MIN .. INT_MAX`. -/
def to_int (x : Int) : Int := (x + 2147483648) % 4294967296 - 2147483648

/-- A tunable file as `set_highest_available_option_value` sees it: whether the
`std::ifstream` and the `std::ofstream` on the path open, and, for each value
written, the token that `inf >> str_rec` extracts from the file afterwards
(empty when the extraction finds no token). -/
structure TunableFile where
  open_in : Bool
  open_out : Bool
  read_back : Int → CStr

/-- What a call of `set_highest_available_option_value` leaves: its return
value and the values it wrote to the file, in the order of the writes. -/
structure OptionResult where
  ret : Bool
  writes : List Int
deriving DecidableEq, Repr

/-- The `while (current >= min)` loop of `set_highest_available_option_value`
and the statements after it, run for at most `fuel` iterations (`none` when the
loop has not ended by then).  `inf_fail` is the `failbit` of the stream `inf`:
once an extraction has found no token, `seekg` and `>>` do nothing and
`str_rec` stays empty.  `current--` is 32-bit arithmetic. -/
def option_value_loop (f : TunableFile) (min : Int) :
    Nat → Int → Bool → List Int → Option OptionResult
  | 0, _, _, _ => none
  | fuel + 1, current, inf_fail, writes =>
    if current ≥ min then
      -- try to write out new value
      let str_val := to_string current
      if !f.open_out then
        some { ret := false, writes := writes }
      else
        -- check to make sure it was recorded
        let str_rec : CStr := if inf_fail then [] else f.read_back current
        if str_val = str_rec then
          some { ret := true, writes := writes ++ [current] }
        else
          option_value_loop f min fuel (to_int (current - 1))
            (inf_fail || decide (str_rec = [])) (writes ++ [current])
    else
      -- current < min
      some { ret := false, writes := writes }

/-- The function `set_highest_available_option_value`, with the number of loop
iterations bounded by `fuel`. -/
def set_highest_available_option_value (fuel : Nat) (f : TunableFile) (min max : Int) :
    Option OptionResult :=
  if !f.open_in then
    some { ret := false, writes := [] }
  else
    option_value_loop f min fuel max false []

/-- The values `hi, hi - 1, ..., lo`, in this order (empty when `hi < lo`). -/
def descending (hi lo : Int) : List Int :=
  (List.range (hi - lo + 1).toNat).map (fun (i : Nat) => hi - (i : Int))

/-- A tunable file that accepts only the values 2 and 3: after a write of 2 or 3
the value is read back, after any other write the file still reads `0`. -/
def file_accepting_2_3 : TunableFile :=
  { open_in := true
    open_out := true
    read_back := fun v => if v = 2 ∨ v = 3 then to_string v else "0".toList }

/-! ## Security hardening: `mix_hwrng_into_linux_rng_action` -/

/-- The libc function `strlcpy` into a buffer of `size` bytes: the string kept
in the buffer. -/
def strlcpy (src : CStr) (size : Nat) : CStr := src.take (size - 1)

/-- The function `android::base::StartsWith`. -/
def StartsWith (s start : CStr) : Bool := decide (s.take start.length = start)

/-- The state that the kernel command line import writes: the buffer `qemu` and
the `property_set` calls made so far, as `(name, value)` pairs in call order. -/
structure ImportState where
  qemu : CStr
  property_set_calls : List (CStr × CStr)
deriving DecidableEq, Repr

/-- The state at program start: `qemu` is zero-filled and no property is set. -/
def ImportState.initial : ImportState := { qemu := [], property_set_calls := [] }

/-- The function `import_kernel_nv`. -/
def import_kernel_nv (key value : CStr) (for_emulator : Bool) (s : ImportState) :
    ImportState :=
  if key = [] then s
  else if for_emulator then
    -- In the emulator, export any kernel option with the "ro.kernel." prefix.
    { s with property_set_calls :=
        s.property_set_calls ++ [("ro.kernel.".toList ++ key, value)] }
  else if key = "qemu".toList then
    { s with qemu := strlcpy value 32 }
  else if StartsWith key "androidboot.".toList then
    { s with property_set_calls :=
        s.property_set_calls ++ [("ro.boot.".toList ++ key.drop 12, value)] }
  else
    s

/-- Modelled from the spec: `import_kernel_cmdline` is defined in `util.cpp`,
which is not among the sources.  The spec gives `/proc/cmdline` as
space-separated `k=v` and has each `key=value` pair processed, malformed input
being skipped: the line is cut at the spaces, and every item that `=` cuts into
exactly a key and a value is handed to `fn` with the flag `in_qemu`. -/
def import_kernel_cmdline {σ : Type} (cmdline : CStr) (in_qemu : Bool)
    (fn : CStr → CStr → Bool → σ → σ) (s : σ) : σ :=
  (cmdline.splitOn ' ').foldl
    (fun t item =>
      match item.splitOn '=' with
      | [key, value] => fn key value in_qemu t
      | _ => t)
    s

/-- The function `process_kernel_cmdline`, on the content `cmdline` of
`/proc/cmdline`. -/
def process_kernel_cmdline (cmdline : CStr) (s : ImportState) : ImportState :=
  -- The first pass does the common stuff, and finds if we are in qemu.
  let s1 := import_kernel_cmdline cmdline false import_kernel_nv s
  -- The second pass is only necessary for qemu to export all kernel params
  if s1.qemu ≠ [] then import_kernel_cmdline cmdline true import_kernel_nv s1 else s1

/-- The command line of scenario E1. -/
def example_cmdline : CStr :=
  "androidboot.hardware=foo bar=baz qemu=1 androidboot.selinux=permissive".toList

/-- An entry of the table `prop_map` of `export_kernel_boot_props`. -/
structure prop_map_entry where
  src_prop : CStr
  dst_prop : CStr
  default_value : CStr
deriving DecidableEq, Repr

/-- The table `prop_map` of `export_kernel_boot_props`. -/
def prop_map : List prop_map_entry :=
  [ { src_prop := "ro.boot.serialno".toList, dst_prop := "ro.serialno".toList,
      default_value := "".toList },
    { src_prop := "ro.boot.mode".toList, dst_prop := "ro.bootmode".toList,
      default_value := "unknown".toList },
    { src_prop := "ro.boot.baseband".toList, dst_prop := "ro.baseband".toList,
      default_value := "unknown".toList },
    { src_prop := "ro.boot.bootloader".toList, dst_prop := "ro.bootloader".toList,
      default_value := "unknown".toList },
    { src_prop := "ro.boot.hardware".toList, dst_prop := "ro.hardware".toList,
      default_value := "unknown".toList },
    { src_prop := "ro.boot.revision".toList, dst_prop := "ro.revision".toList,
      default_value := "0".toList } ]

/-- The function `export_kernel_boot_props`: the `property_set` calls it makes,
as `(name, value)` pairs in call order, on the property store read through
`property_get` (the empty string for a property that is not set).  The names it
sets are not among those it reads. -/
def export_kernel_boot_props (property_get : CStr → CStr) : List (CStr × CStr) :=
  prop_map.map (fun e =>
    let value := property_get e.src_prop
    (e.dst_prop, if value ≠ [] then value else e.default_value))

/-- The function `export_oem_lock_status`: the `property_set` calls it makes. -/
def export_oem_lock_status (property_get : CStr → CStr) : List (CStr × CStr) :=
  if property_get "ro.oem_unlock_supported".toList ≠ "1".toList then
    []
  else
    let value := property_get "ro.boot.verifiedbootstate".toList
    if value ≠ [] then
      [("ro.boot.flash.locked".toList, if value = "orange".toList then "0".toList else "1".toList)]
    else
      []

/-- The member functions of `Service` that `handle_control_message` calls. -/
inductive ServiceCall where
  | Start
  | Stop
  | Restart
deriving DecidableEq, Repr

/-- The function `handle_control_message`: the calls it makes on services, each
with the service it is made on.  `FindServiceByName` is the lookup of the
service manager, `none` standing for `nullptr`. -/
def handle_control_message {Service : Type} (FindServiceByName : CStr → Option Service)
    (msg name : CStr) : List (Service × ServiceCall) :=
  match FindServiceByName name with
  | none => []
  | some svc =>
    if msg = "start".toList then [(svc, .Start)]
    else if msg = "stop".toList then [(svc, .Stop)]
    else if msg = "restart".toList then [(svc, .Restart)]
    else []

/-! ## Early mount: coldboot and row order -/

/-- The fields of `struct uevent` that `init.cpp` reads; `none` is `NULL`. -/
structure uevent where
  subsystem : CStr
  partition_name : Option CStr
  device_name : Option CStr
deriving DecidableEq, Repr

/-- The type `coldboot_action_t`. -/
inductive coldboot_action_t where
  | COLDBOOT_CONTINUE
  | COLDBOOT_CREATE
  | COLDBOOT_STOP
deriving DecidableEq, Repr

/-- The visitor that `early_device_init` hands to `device_init`, called on the
event `ev` with the set `*partition_names` as it is then: the action it returns
and the set it leaves. -/
def early_device_init_visitor (partition_names : Finset CStr) (ev : uevent) :
    coldboot_action_t × Finset CStr :=
  if strncmp ev.subsystem "firmware".toList 8 = 0 then
    (.COLDBOOT_CONTINUE, partition_names)
  -- we need platform devices to create symlinks
  else if strncmp ev.subsystem "platform".toList 8 = 0 then
    (.COLDBOOT_CREATE, partition_names)
  -- Ignore everything that is not a block device
  else if strncmp ev.subsystem "block".toList 5 ≠ 0 then
    (.COLDBOOT_CONTINUE, partition_names)
  else
    match ev.partition_name with
    | some name =>
      -- match partition names to create device nodes for partitions
      if name ∈ partition_names then
        let left := partition_names.erase name
        if left = ∅ then
          (.COLDBOOT_STOP, left)  -- found all partitions, stop coldboot
        else
          (.COLDBOOT_CREATE, left)  -- create this device and continue to find others
      else
        (.COLDBOOT_CONTINUE, partition_names)
    | none =>
      -- Not found a partition or find an unneeded partition, continue to find others
      (.COLDBOOT_CONTINUE, partition_names)

/-- Modelled from the spec: `device_init` is defined in `devices.cpp`, which is
not among the sources.  By the spec a coldboot pass replays the hot-plug events,
hands each to a visitor that returns Continue, Create or Stop, and ends at a
Stop.  The result is the list of the visitor's answers and the state the
visitor leaves. -/
def device_init {σ : Type} (visit : σ → uevent → coldboot_action_t × σ) :
    List uevent → σ → List coldboot_action_t × σ
  | [], s => ([], s)
  | ev :: evs, s =>
    match visit s ev with
    | (.COLDBOOT_STOP, s1) => ([.COLDBOOT_STOP], s1)
    | (a, s1) =>
      match device_init visit evs s1 with
      | (as, s2) => (a :: as, s2)

/-- The function `early_device_init` on the events `events` of a coldboot pass:
the answers of its visitor (`none` when no pass is started) and the set
`*partition_names` it leaves. -/
def early_device_init (events : List uevent) (partition_names : Finset CStr) :
    Option (List coldboot_action_t) × Finset CStr :=
  if partition_names = ∅ then
    (none, partition_names)
  else
    match device_init early_device_init_visitor events partition_names with
    | (as, left) => (some as, left)

/-- The function `is_dt_fstab_compatible` on the result `file` of
`ReadFileToString` for the `compatible` entry of the device-tree fstab (`none`
when the read fails).  The value is `none` when the function does not return:
on an empty content `dt_value.size() - 1` is the greatest `size_t`, and
`resize` to that length fails. -/
def is_dt_fstab_compatible (file : Option CStr) : Option Bool :=
  match file with
  | none => some false
  | some dt_value =>
    if dt_value = [] then none
    else some (decide (dt_value.dropLast = "android,fstab".toList))

/-- Modelled from the spec: `fs_mgr_get_entry_for_mount_point` belongs to
`fs_mgr`, which is not among the sources.  The spec has the rows selected by
their mount-point: the result is the first row of the table with the mount
point `path`, `none` (for `nullptr`) when there is none. -/
def fs_mgr_get_entry_for_mount_point (tab : List fstab_rec) (path : CStr) : Option fstab_rec :=
  tab.find? (fun r => decide (r.mount_point = path))

/-- The vector `early_fstab_recs` that `early_mount` builds from the fstab
`tab`: the records found for `/odm`, `/system` and `/vendor`. -/
def early_fstab_recs (tab : List fstab_rec) : List fstab_rec :=
  ["/odm".toList, "/system".toList, "/vendor".toList].filterMap
    (fun mount_point => fs_mgr_get_entry_for_mount_point tab mount_point)

/-- What `early_mount` meets: whether `/sbin/recovery` exists, the content of
the `compatible` entry of the device-tree fstab, the fstab read from the device
tree (`none` when the read fails), the flag tests of `fs_mgr`, the events of the
coldboot pass, the result of `fs_mgr_setup_verity` on a record (`none` for
`FS_MGR_SETUP_VERITY_FAIL`, otherwise the block device that it puts into the
record) and the value of `fs_mgr_do_mount_one` on a record. -/
structure EarlyMountWorld where
  recovery_present : Bool
  dt_fstab_compatible_file : Option CStr
  fs_mgr_read_fstab_dt : Option (List fstab_rec)
  fm : FsMgr
  coldboot_events : List uevent
  fs_mgr_setup_verity : fstab_rec → Option CStr
  fs_mgr_do_mount_one : fstab_rec → Int

/-- The calls by which `early_mount` acts on devices and file systems, as
recorded in call order; the path of a `device_init` is `none` for `nullptr`. -/
inductive EarlyMountStep where
  | device_init (path : Option CStr)
  | setup_verity (row : fstab_rec)
  | mount (row : fstab_rec)
  | device_close
deriving DecidableEq, Repr

/-- The function `early_mount_one` on a record that is not `nullptr`: its return
value and the calls made. -/
def early_mount_one (w : EarlyMountWorld) (row : fstab_rec) : Bool × List EarlyMountStep :=
  if w.fm.fs_mgr_is_verified row then
    -- setup verity and create the dm-XX block device
    match w.fs_mgr_setup_verity row with
    | none => (false, [.setup_verity row])
    | some dm =>
      let row1 : fstab_rec := { row with blk_device := dm }
      let dm_device := basename row1.blk_device
      let syspath := "/sys/block/".toList ++ dm_device
      if w.fs_mgr_do_mount_one row1 ≠ 0 then
        (false, [.setup_verity row, .device_init (some syspath), .mount row1])
      else
        (true, [.setup_verity row, .device_init (some syspath), .mount row1])
  else if w.fs_mgr_do_mount_one row ≠ 0 then
    (false, [.mount row])
  else
    (true, [.mount row])

/-- The last `for` loop of `early_mount`: `early_mount_one` on each record in
turn, left at the first failure. -/
def early_mount_rows (w : EarlyMountWorld) : List fstab_rec → Bool × List EarlyMountStep
  | [] => (true, [])
  | row :: rows =>
    match early_mount_one w row with
    | (false, steps) => (false, steps)
    | (true, steps) =>
      match early_mount_rows w rows with
      | (ok, steps2) => (ok, steps ++ steps2)

/-- The call record of `early_device_init`: one `device_init(nullptr, ...)` when
a coldboot pass was started. -/
def early_device_init_steps : Option (List coldboot_action_t) → List EarlyMountStep
  | some _ => [.device_init none]
  | none => []

/-- The function `early_mount`: its return value and the calls made, `none`
when `is_dt_fstab_compatible` does not return. -/
def early_mount (w : EarlyMountWorld) : Option (Bool × List EarlyMountStep) :=
  -- skip early mount if we're in recovery mode
  if w.recovery_present then some (true, [])
  else
    -- first check if device tree fstab entries are compatible
    match is_dt_fstab_compatible w.dt_fstab_compatible_file with
    | none => none
    | some false => some (true, [])
    | some true =>
      match w.fs_mgr_read_fstab_dt with
      | none => some (false, [])
      | some tab =>
        -- find out fstab records for odm, system and vendor
        let recs := early_fstab_recs tab
        -- nothing to early mount
        if recs = [] then some (true, [])
        else
          let parts := get_early_partitions w.fm recs
          if !parts.ret then some (false, [])
          else
            -- create the devices we need..
            match early_device_init w.coldboot_events parts.out_partitions with
            | (pass, partition_names) =>
              let steps0 : List EarlyMountStep := early_device_init_steps pass
              if partition_names ≠ ∅ then
                some (false, steps0 ++ [.device_close])
              else
                let steps1 : List EarlyMountStep :=
                  if parts.out_need_verity then
                    -- create /dev/device mapper
                    steps0 ++
                      [.device_init (some "/sys/devices/virtual/misc/device-mapper".toList)]
                  else steps0
                match early_mount_rows w recs with
                | (success, steps2) => some (success, steps1 ++ steps2 ++ [.device_close])

/-- The mount points of the records that a call record mounts, in order. -/
def mounted : List EarlyMountStep → List CStr
  | [] => []
  | .mount row :: steps => row.mount_point :: mounted steps
  | _ :: steps => mounted steps

/-- The mount points of the records for which a call record sets up verity, in
order. -/
def verity_set_up : List EarlyMountStep → List CStr
  | [] => []
  | .setup_verity row :: steps => row.mount_point :: verity_set_up steps
  | _ :: steps => verity_set_up steps

/-- A block event for the partition `name`. -/
def block_event (name : CStr) : uevent :=
  { subsystem := "block".toList, partition_name := some name, device_name := some name }

/-- A system whose device-tree fstab lists `/vendor` on `sda1` before `/odm` on
`sda3`, neither verified; coldboot finds both partitions and both mounts
succeed. -/
def world_vendor_first : EarlyMountWorld :=
  { recovery_present := false
    dt_fstab_compatible_file := some ("android,fstab".toList ++ [Char.ofNat 0])
    fs_mgr_read_fstab_dt := some
      [ { blk_device := "/dev/block/sda1".toList, mount_point := "/vendor".toList,
          fs_mgr_flags := 0, verity_loc := none },
        { blk_device := "/dev/block/sda3".toList, mount_point := "/odm".toList,
          fs_mgr_flags := 0, verity_loc := none } ]
    fm := example_fs_mgr
    coldboot_events := [block_event "sda1".toList, block_event "sda3".toList]
    fs_mgr_setup_verity := fun _ => none
    fs_mgr_do_mount_one := fun _ => 0 }

/-! ## The supervisor loop of `main` -/

/-- The value of `epoll_timeout_ms` with which one iteration of the loop of
`main` calls `epoll_wait`, from the value of `process_needs_restart_at`, the
value `now` of `time(nullptr)` and the value of `am.HasMoreCommands()`.  The
product is computed in `time_t`, whose width is a multiple of 32 bits, and
stored into an `int`: what the `int` holds is the product reduced to 32 bits. -/
def epoll_timeout_ms (process_needs_restart_at now : Int) (HasMoreCommands : Bool) : Int :=
  -- By default, sleep until something happens.
  let timeout0 : Int := -1
  -- If there's a process that needs restarting, wake up in time for that.
  let timeout1 : Int :=
    if process_needs_restart_at ≠ 0 then
      let t := to_int ((process_needs_restart_at - now) * 1000)
      if t < 0 then 0 else t
    else
      timeout0
  -- If there's more work to do, wake up again immediately.
  if HasMoreCommands then 0 else timeout1

/-- The globals that the loop of `main` reads and writes. -/
structure MainState where
  globals : InitState
  process_needs_restart_at : Int

/-- What the collaborators of the loop do during one iteration: the effect on
the globals of the command that `am.ExecuteOneCommand()` runs, the value of
`process_needs_restart_at` that `restart_processes()` leaves, the value of
`am.HasMoreCommands()`, the value of `time(nullptr)`, and, for the timeout
passed to `epoll_wait`, the effect on the globals of the callback of the ready
descriptor (`none` when `epoll_wait` does not return 1). -/
structure Iteration where
  ExecuteOneCommand : InitState → InitState
  restart_processes : Int
  HasMoreCommands : Bool
  time : Int
  epoll_wait : Int → Option (InitState → InitState)

/-- The calls made by the loop of `main`, as recorded in call order; a call of
`ExecuteOneCommand` is recorded with the globals as they are when it is made. -/
inductive LoopStep where
  | ExecuteOneCommand (globals : InitState)
  | restart_processes
  | epoll_wait (timeout : Int)
  | callback
deriving DecidableEq, Repr

/-- One iteration of the `while (true)` loop of `main`: the globals it leaves
and the calls it makes. -/
def main_loop_iteration (it : Iteration) (s : MainState) : MainState × List LoopStep :=
  let r : MainState × List LoopStep :=
    if !(s.globals.waiting_for_exec.isSome || s.globals.waiting_for_prop.isSome) then
      ({ globals := it.ExecuteOneCommand s.globals
         process_needs_restart_at := it.restart_processes },
       [.ExecuteOneCommand s.globals, .restart_processes])
    else
      (s, [])
  let timeout := epoll_timeout_ms r.1.process_needs_restart_at it.time it.HasMoreCommands
  match it.epoll_wait timeout with
  | some fn => ({ r.1 with globals := fn r.1.globals }, r.2 ++ [.epoll_wait timeout, .callback])
  | none => (r.1, r.2 ++ [.epoll_wait timeout])

/-- The first iterations of the loop of `main`, one for each element of `its`:
the globals they leave and the calls they make. -/
def main_loop : List Iteration → MainState → MainState × List LoopStep
  | [], s => (s, [])
  | it :: its, s =>
    match main_loop_iteration it s with
    | (s1, steps) =>
      match main_loop its s1 with
      | (s2, steps2) => (s2, steps ++ steps2)

/-- Whether a call is a call of `ExecuteOneCommand`. -/
def LoopStep.is_execute : LoopStep → Bool
  | .ExecuteOneCommand _ => true
  | _ => false

/-- Whether a call is a call of `epoll_wait`. -/
def LoopStep.is_epoll_wait : LoopStep → Bool
  | .epoll_wait _ => true
  | _ => false

/-! ## Device tree import, enforce mode -/

/-- The constant `android_dt_dir`. -/
def android_dt_dir : CStr := "/proc/device-tree/firmware/android".toList

/-- The C string that `std::string::c_str` hands to a function that reads up to
the first NUL: the characters of `s` before its first NUL. -/
def c_str (s : CStr) : CStr := s.takeWhile (fun c => c != Char.ofNat 0)

/-- The function `is_dt_compatible` on the result `file` of `ReadFileToString`
for the `compatible` entry of the device-tree directory (`none` when the read
fails).  The value is `none` when the function does not return: on an empty
content `dt_value.size() - 1` is the greatest `size_t`, and `resize` to that
length fails. -/
def is_dt_compatible (file : Option CStr) : Option Bool :=
  match file with
  | none => some false
  | some dt_value =>
    -- trim the trailing '\0' out
    if dt_value = [] then none
    else some (decide (dt_value.dropLast = "android,firmware".toList))

/-- The fields of `struct dirent` that `process_kernel_dt` reads: whether
`d_type` is `DT_REG`, and `d_name`. -/
structure dirent where
  d_type_is_reg : Bool
  d_name : CStr
deriving DecidableEq, Repr

/-- The device tree as `process_kernel_dt` meets it: the content of the
`compatible` entry (`none` when it cannot be read), the entries that `readdir`
gives for the directory (`none` when `opendir` fails), and for each file name
the content that `ReadFileToString` leaves in `dt_file`. -/
structure DeviceTree where
  compatible : Option CStr
  opendir : Option (List dirent)
  ReadFileToString : CStr → CStr

/-- The body of the `while` loop of `process_kernel_dt` for the entry `dp`. -/
def process_kernel_dt_entry (dt : DeviceTree) (s : ImportState) (dp : dirent) : ImportState :=
  if !dp.d_type_is_reg || decide (dp.d_name = "compatible".toList)
      || decide (dp.d_name = "name".toList) then
    s
  else
    let file_name := android_dt_dir ++ '/' :: dp.d_name
    let dt_file := (dt.ReadFileToString file_name).map (fun c => if c = ',' then '.' else c)
    let property_name := "ro.boot.".toList ++ dp.d_name
    { s with property_set_calls := s.property_set_calls ++ [(property_name, c_str dt_file)] }

/-- The function `process_kernel_dt`; `none` when `is_dt_compatible` does not
return. -/
def process_kernel_dt (dt : DeviceTree) (s : ImportState) : Option ImportState :=
  match is_dt_compatible dt.compatible with
  | none => none
  | some false => some s
  | some true =>
    match dt.opendir with
    | none => some s
    | some entries => some (entries.foldl (process_kernel_dt_entry dt) s)

/-- The two imports of the second stage of `main`, in the order of the source:
`process_kernel_dt();` and then `process_kernel_cmdline();`. -/
def second_stage_import (dt : DeviceTree) (cmdline : CStr) (s : ImportState) :
    Option ImportState :=
  match process_kernel_dt dt s with
  | none => none
  | some s1 => some (process_kernel_cmdline cmdline s1)

/-- The value of the first `property_set` call for `name` in a call record. -/
def first_set (calls : List (CStr × CStr)) (name : CStr) : Option CStr :=
  (calls.find? (fun c => decide (c.1 = name))).map (fun c => c.2)

/-- A device tree with the one property file `hardware` of content `dtboard`
(and its trailing NUL). -/
def example_device_tree : DeviceTree :=
  { compatible := some ("android,firmware".toList ++ [Char.ofNat 0])
    opendir := some
      [ { d_type_is_reg := true, d_name := "compatible".toList },
        { d_type_is_reg := true, d_name := "name".toList },
        { d_type_is_reg := false, d_name := "fstab".toList },
        { d_type_is_reg := true, d_name := "hardware".toList } ]
    ReadFileToString := fun _ => "dtboard".toList ++ [Char.ofNat 0] }

/-- The pairs that `import_kernel_cmdline` hands to its callback for the line
`cmdline`, in order. -/
def cmdline_pairs (cmdline : CStr) : List (CStr × CStr) :=
  import_kernel_cmdline cmdline false (fun key value _ acc => acc ++ [(key, value)]) []

/-- The type `selinux_enforcing_status`. -/
inductive selinux_enforcing_status where
  | SELINUX_PERMISSIVE
  | SELINUX_ENFORCING
deriving DecidableEq, Repr

/-- The function `selinux_status_from_cmdline`, on the content `cmdline` of
`/proc/cmdline`. -/
def selinux_status_from_cmdline (cmdline : CStr) : selinux_enforcing_status :=
  import_kernel_cmdline cmdline false
    (fun key value _ status =>
      if key = "androidboot.selinux".toList ∧ value = "permissive".toList then
        .SELINUX_PERMISSIVE
      else status)
    .SELINUX_ENFORCING

/-- The function `selinux_is_enforcing`; the macro `ALLOW_PERMISSIVE_SELINUX`
of the build is a parameter. -/
def selinux_is_enforcing (ALLOW_PERMISSIVE_SELINUX : Bool) (cmdline : CStr) : Bool :=
  if ALLOW_PERMISSIVE_SELINUX then
    decide (selinux_status_from_cmdline cmdline = .SELINUX_ENFORCING)
  else
    true

/-- What `selinux_initialize` meets: the system of the policy loader, the build
flag, the kernel command line, the values returned by `security_getenforce()`
and by `security_setenforce`, and whether the write of `checkreqprot`
succeeds. -/
structure SelinuxWorld where
  policy : PolicyWorld
  ALLOW_PERMISSIVE_SELINUX : Bool
  cmdline : CStr
  security_getenforce : Int
  security_setenforce : Bool → Int
  write_checkreqprot : Bool

/-- The calls by which `selinux_initialize` acts, as recorded in call order;
`panic` does not return. -/
inductive SelinuxStep where
  | policy (call : PolicyCall)
  | security_setenforce (value : Bool)
  | write_checkreqprot
  | setenv_INIT_SELINUX_TOOK
  | selinux_init_all_handles
  | panic
deriving DecidableEq, Repr

/-- The function `selinux_initialize`: the calls it makes. -/
def selinux_initialize (w : SelinuxWorld) (in_kernel_domain : Bool) : List SelinuxStep :=
  if in_kernel_domain then
    match selinux_load_policy w.policy with
    | (false, calls) => calls.map .policy ++ [.panic]
    | (true, calls) =>
      let kernel_enforcing : Bool := decide (w.security_getenforce = 1)
      let is_enforcing : Bool := selinux_is_enforcing w.ALLOW_PERMISSIVE_SELINUX w.cmdline
      let steps1 : List SelinuxStep :=
        if kernel_enforcing ≠ is_enforcing then [.security_setenforce is_enforcing] else []
      if kernel_enforcing ≠ is_enforcing ∧ w.security_setenforce is_enforcing ≠ 0 then
        -- security_failure()
        calls.map .policy ++ steps1 ++ [.panic]
      else if !w.write_checkreqprot then
        calls.map .policy ++ steps1 ++ [.write_checkreqprot, .panic]
      else
        calls.map .policy ++ steps1 ++ [.write_checkreqprot, .setenv_INIT_SELINUX_TOOK]
  else
    [.selinux_init_all_handles]

/-- Whether a call is a request for a wait: a call of `start_waiting_for_exec`
or of `start_waiting_for_property`. -/
def InitCall.is_request : InitCall → Bool
  | .start_waiting_for_exec _ => true
  | .start_waiting_for_property _ _ _ _ => true
  | _ => false

/-- The state `s` with the `property_set` calls `pre` made before its own. -/
def ImportState.after (pre : List (CStr × CStr)) (s : ImportState) : ImportState :=
  { s with property_set_calls := pre ++ s.property_set_calls }

/-- The properties that the device-tree directory with the entries `entries`
gives: for each regular file other than `compatible` and `name`, in directory
order, the name `ro.boot.<file name>` and the content of the file up to its
first NUL, with commas rewritten to dots. -/
def device_tree_properties (dt : DeviceTree) (entries : List dirent) : List (CStr × CStr) :=
  (entries.filter (fun dp =>
      dp.d_type_is_reg && !decide (dp.d_name = "compatible".toList)
        && !decide (dp.d_name = "name".toList))).map
    (fun dp =>
      ("ro.boot.".toList ++ dp.d_name,
        c_str ((dt.ReadFileToString (android_dt_dir ++ '/' :: dp.d_name)).map
          (fun c => if c = ',' then '.' else c))))

end Init

namespace Init

/-! ## Facts about the environment vector -/

theorem take_length_takeWhile (p : Char → Bool) (e : CStr) :
    e.take (e.takeWhile p).length = e.takeWhile p := by
  induction e with
  | nil => rfl
  | cons c cs ih =>
    by_cases h : p c
    · simp [List.takeWhile_cons, h, ih]
    · simp [List.takeWhile_cons, h]

theorem strcspn_eq (e : CStr) : strcspn e ['='] = (entry_key e).length := by
  unfold strcspn entry_key
  congr 2
  funext c
  by_cases h : c = '=' <;> simp [h]

theorem entry_matches_iff (key e : CStr) :
    entry_matches key e = true ↔ entry_key e = key := by
  unfold entry_matches strncmp strlen
  simp only [strcspn_eq]
  have ht : e.take (entry_key e).length = entry_key e := take_length_takeWhile _ e
  constructor
  · intro h
    simp only [Bool.and_eq_true, decide_eq_true_eq] at h
    obtain ⟨h1, h2⟩ := h
    split at h2
    · rename_i h3
      rw [ht, h1, List.take_length] at h3
      exact h3
    · simp at h2
  · intro h
    subst h
    simp [ht]

theorem entry_matches_eq_false (key e : CStr) (h : entry_key e ≠ key) :
    entry_matches key e = false := by
  cases hm : entry_matches key e with
  | false => rfl
  | true => exact absurd ((entry_matches_iff key e).1 hm) h

theorem getD_middle (front rest : Env) (x : Option CStr) :
    (front ++ x :: rest).getD front.length none = x := by
  induction front with
  | nil => rfl
  | cons a f ih => simpa using ih

theorem set_middle (front rest : Env) (x y : Option CStr) :
    (front ++ x :: rest).set front.length y = front ++ y :: rest := by
  induction front with
  | nil => rfl
  | cons a f ih => simp [ih]

theorem loop_free (key val : CStr) (todo : Nat) (front rest : Env) :
    add_environment_loop key val (todo + 1) front.length (front ++ none :: rest)
      = (0, front ++ some (asprintf_entry key val) :: rest) := by
  rw [add_environment_loop]
  simp only [getD_middle, set_middle, if_true]

theorem loop_match (key val e : CStr) (todo : Nat) (front rest : Env)
    (h : entry_key e = key) :
    add_environment_loop key val (todo + 1) front.length (front ++ some e :: rest)
      = (0, front ++ some (asprintf_entry key val) :: rest) := by
  have hm : entry_matches key e = true := (entry_matches_iff key e).2 h
  rw [add_environment_loop]
  simp only [getD_middle, set_middle, hm, if_true]

theorem loop_other (key val e : CStr) (todo : Nat) (front rest : Env)
    (h : entry_key e ≠ key) :
    add_environment_loop key val (todo + 1) front.length (front ++ some e :: rest)
      = add_environment_loop key val todo (front.length + 1) (front ++ some e :: rest) := by
  have hm : entry_matches key e = false := entry_matches_eq_false key e h
  rw [add_environment_loop]
  simp only [getD_middle, hm, Bool.false_eq_true, if_false, reduceCtorEq]

theorem loop_skip (key val : CStr) (todo : Nat) (pre : List CStr) :
    ∀ (front rest : Env), (∀ x ∈ pre, entry_key x ≠ key) →
      add_environment_loop key val (pre.length + todo) front.length
          (front ++ (pre.map some ++ rest))
        = add_environment_loop key val todo (front.length + pre.length)
          (front ++ (pre.map some ++ rest)) := by
  induction pre with
  | nil => intro front rest _; simp
  | cons e pre ih =>
    intro front rest h
    have he : entry_key e ≠ key := h e (List.mem_cons_self _ _)
    have hpre : ∀ x ∈ pre, entry_key x ≠ key := fun x hx => h x (List.mem_cons_of_mem _ hx)
    have hlen : (e :: pre).length + todo = (pre.length + todo) + 1 := by
      simp only [List.length_cons]; omega
    have hstep := loop_other key val e (pre.length + todo) front (pre.map some ++ rest) he
    have hih := ih (front ++ [some e]) rest hpre
    simp only [List.length_append, List.length_singleton, List.append_assoc,
      List.singleton_append] at hih
    have hidx : front.length + (e :: pre).length = front.length + 1 + pre.length := by
      simp only [List.length_cons]; omega
    rw [hidx, hlen]
    simp only [List.map_cons, List.cons_append]
    rw [hstep, hih]

theorem env_layout_length (es : List CStr) (h : es.length ≤ 32) :
    (env_layout es).length = 32 := by
  simp only [env_layout, List.length_append, List.length_map, List.length_replicate]
  omega

theorem replicate_none_succ (k : Nat) :
    List.replicate (k + 1) (none : Option CStr) = none :: List.replicate k none := rfl

/-- Replacement: the first entry with the key is overwritten in place. -/
theorem add_environment_replace (key val e : CStr) (pre post : List CStr)
    (hlen : (pre ++ e :: post).length ≤ 31)
    (hpre : ∀ x ∈ pre, entry_key x ≠ key) (he : entry_key e = key) :
    add_environment key val (env_layout (pre ++ e :: post))
      = (0, env_layout (pre ++ asprintf_entry key val :: post)) := by
  have hl : (pre ++ e :: post).length ≤ 32 := by omega
  unfold add_environment arraysize
  rw [env_layout_length _ hl]
  simp only [List.length_append, List.length_cons] at hlen
  have htodo : 32 - 1 = pre.length + ((30 - pre.length) + 1) := by omega
  have hskip := loop_skip key val ((30 - pre.length) + 1) pre []
    (some e :: (post.map some ++ List.replicate (32 - (pre ++ e :: post).length) none)) hpre
  have hhit := loop_match key val e (30 - pre.length) (pre.map some)
    (post.map some ++ List.replicate (32 - (pre ++ e :: post).length) none) he
  simp only [List.nil_append, List.length_nil, Nat.zero_add, List.length_append,
    List.length_cons] at hskip
  simp only [List.length_map, List.length_append, List.length_cons] at hhit
  simp only [env_layout, List.map_append, List.map_cons, List.append_assoc, List.cons_append,
    htodo, hskip, hhit, List.length_append, List.length_cons]

/-- Appending: a key that no entry has goes to the first free slot. -/
theorem add_environment_append (key val : CStr) (es : List CStr)
    (hlen : es.length < 31) (hes : ∀ x ∈ es, entry_key x ≠ key) :
    add_environment key val (env_layout es)
      = (0, env_layout (es ++ [asprintf_entry key val])) := by
  have hl : es.length ≤ 32 := by omega
  unfold add_environment arraysize
  rw [env_layout_length _ hl]
  have htodo : 32 - 1 = es.length + ((30 - es.length) + 1) := by omega
  have hrep : 32 - es.length = (32 - (es.length + 1)) + 1 := by omega
  have hskip := loop_skip key val ((30 - es.length) + 1) es []
    (none :: List.replicate (32 - (es.length + 1)) none) hes
  have hhit := loop_free key val (30 - es.length) (es.map some)
    (List.replicate (32 - (es.length + 1)) none)
  simp only [List.nil_append, List.length_nil, Nat.zero_add] at hskip
  simp only [List.length_map] at hhit
  simp only [env_layout, hrep, replicate_none_succ, htodo, hskip, hhit, List.map_append,
    List.map_cons, List.map_nil, List.append_assoc, List.singleton_append, List.length_append,
    List.length_singleton]

/-- Overflow: with 31 entries stored and none with the key, nothing changes. -/
theorem add_environment_full (key val : CStr) (es : List CStr)
    (hlen : es.length = 31) (hes : ∀ x ∈ es, entry_key x ≠ key) :
    add_environment key val (env_layout es) = (-1, env_layout es) := by
  have hl : es.length ≤ 32 := by omega
  unfold add_environment arraysize
  rw [env_layout_length _ hl]
  have htodo : 32 - 1 = es.length + 0 := by omega
  have hskip := loop_skip key val 0 es [] (List.replicate (32 - es.length) none) hes
  simp only [List.nil_append, List.length_nil, Nat.zero_add] at hskip
  simp only [env_layout, htodo, hskip]
  rfl

theorem split_at_first {α : Type} (p : α → Prop) [DecidablePred p] (l : List α)
    (h : ∃ x ∈ l, p x) :
    ∃ pre e post, l = pre ++ e :: post ∧ (∀ x ∈ pre, ¬ p x) ∧ p e := by
  induction l with
  | nil => obtain ⟨x, hx, _⟩ := h; cases hx
  | cons a l ih =>
    by_cases ha : p a
    · exact ⟨[], a, l, rfl, by simp, ha⟩
    · have h2 : ∃ x ∈ l, p x := by
        obtain ⟨x, hx, hpx⟩ := h
        rcases List.mem_cons.1 hx with rfl | hx
        · exact absurd hpx ha
        · exact ⟨x, hx, hpx⟩
      obtain ⟨pre, e, post, hl, hpre, he⟩ := ih h2
      refine ⟨a :: pre, e, post, by simp [hl], ?_, he⟩
      intro x hx
      rcases List.mem_cons.1 hx with rfl | hx
      · exact ha
      · exact hpre x hx

/-- The three ways in which `add_environment` acts on a packed vector. -/
theorem add_environment_cases (key val : CStr) (es : List CStr) (hlen : es.length ≤ 31) :
    (∃ pre e post, es = pre ++ e :: post ∧ (∀ x ∈ pre, entry_key x ≠ key) ∧ entry_key e = key ∧
        add_environment key val (env_layout es)
          = (0, env_layout (pre ++ asprintf_entry key val :: post))) ∨
    ((∀ x ∈ es, entry_key x ≠ key) ∧ es.length < 31 ∧
        add_environment key val (env_layout es)
          = (0, env_layout (es ++ [asprintf_entry key val]))) ∨
    ((∀ x ∈ es, entry_key x ≠ key) ∧ es.length = 31 ∧
        add_environment key val (env_layout es) = (-1, env_layout es)) := by
  by_cases h : ∃ x ∈ es, entry_key x = key
  · obtain ⟨pre, e, post, hes, hpre, he⟩ := split_at_first (fun x => entry_key x = key) es h
    left
    refine ⟨pre, e, post, hes, hpre, he, ?_⟩
    subst hes
    exact add_environment_replace key val e pre post hlen hpre he
  · have hes : ∀ x ∈ es, entry_key x ≠ key := fun x hx hk => h ⟨x, hx, hk⟩
    by_cases hl : es.length < 31
    · exact Or.inr (Or.inl ⟨hes, hl, add_environment_append key val es hl hes⟩)
    · have hl31 : es.length = 31 := by omega
      exact Or.inr (Or.inr ⟨hes, hl31, add_environment_full key val es hl31 hes⟩)

theorem add_environment_layout (key val : CStr) (es : List CStr) (hlen : es.length ≤ 31) :
    ∃ es2 : List CStr, es2.length ≤ 31 ∧
      (add_environment key val (env_layout es)).2 = env_layout es2 := by
  rcases add_environment_cases key val es hlen with
    ⟨pre, e, post, hes, _, _, h⟩ | ⟨_, hl, h⟩ | ⟨_, _, h⟩
  · refine ⟨pre ++ asprintf_entry key val :: post, ?_, by rw [h]⟩
    subst hes
    simpa using hlen
  · refine ⟨es ++ [asprintf_entry key val], ?_, by rw [h]⟩
    simp only [List.length_append, List.length_singleton]
    omega
  · exact ⟨es, hlen, by rw [h]⟩

theorem ENV_eq_layout : ENV = env_layout [] := rfl

/-- Every vector reachable by `add_environment` calls is packed. -/
theorem add_environments_layout (calls : List (CStr × CStr)) :
    ∀ es : List CStr, es.length ≤ 31 →
      ∃ es2 : List CStr, es2.length ≤ 31 ∧
        add_environments calls (env_layout es) = env_layout es2 := by
  induction calls with
  | nil => intro es h; exact ⟨es, h, rfl⟩
  | cons c cs ih =>
    intro es h
    obtain ⟨es1, h1, e1⟩ := add_environment_layout c.1 c.2 es h
    obtain ⟨es2, h2, e2⟩ := ih es1 h1
    refine ⟨es2, h2, ?_⟩
    simp only [add_environments, List.foldl_cons] at e2 ⊢
    rw [e1, e2]

theorem stored_env_layout (es : List CStr) : stored (env_layout es) = es := by
  unfold stored env_layout
  rw [List.filterMap_append]
  have h1 : List.filterMap id (List.map some es) = es := by
    induction es with
    | nil => rfl
    | cons a l ih => simp [ih]
  have h2 : ∀ k : Nat, List.filterMap id (List.replicate k (none : Option CStr)) = [] := by
    intro k
    induction k with
    | zero => rfl
    | succ k ih => simp [List.replicate_succ, ih]
  rw [h1, h2, List.append_nil]

theorem entry_key_asprintf (key val : CStr) (h : '=' ∉ key) :
    entry_key (asprintf_entry key val) = key := by
  unfold entry_key asprintf_entry
  induction key with
  | nil => simp
  | cons c cs ih =>
    have hc : c ≠ '=' := fun hc => h (by simp [hc])
    have hcs : '=' ∉ cs := fun hcs => h (List.mem_cons_of_mem _ hcs)
    simp [List.takeWhile_cons, hc, ih hcs]

theorem add_environment_keys (key val : CStr) (es : List CStr) (hlen : es.length ≤ 31)
    (hk : '=' ∉ key) :
    ∃ es2 : List CStr, es2.length ≤ 31 ∧
      (add_environment key val (env_layout es)).2 = env_layout es2 ∧
      es2.map entry_key = keys_step (es.map entry_key) key := by
  have hkv := entry_key_asprintf key val hk
  rcases add_environment_cases key val es hlen with
    ⟨pre, e, post, hes, _, he, h⟩ | ⟨hno, hl, h⟩ | ⟨hno, hl, h⟩
  · refine ⟨pre ++ asprintf_entry key val :: post, ?_, by rw [h], ?_⟩
    · subst hes
      simpa using hlen
    · have hmem : key ∈ es.map entry_key := by
        subst hes
        simp [he]
      subst hes
      simp only [keys_step, hmem, if_true]
      simp [hkv, he]
  · refine ⟨es ++ [asprintf_entry key val], ?_, by rw [h], ?_⟩
    · simp only [List.length_append, List.length_singleton]
      omega
    · have hmem : key ∉ es.map entry_key := by
        intro hm
        obtain ⟨x, hx, hxk⟩ := List.mem_map.1 hm
        exact hno x hx hxk
      simp [keys_step, hmem, hl, hkv]
  · refine ⟨es, hlen, by rw [h], ?_⟩
    have hmem : key ∉ es.map entry_key := by
      intro hm
      obtain ⟨x, hx, hxk⟩ := List.mem_map.1 hm
      exact hno x hx hxk
    simp [keys_step, hmem, hl]

theorem add_environments_keys (calls : List (CStr × CStr)) :
    ∀ es : List CStr, es.length ≤ 31 → (∀ c ∈ calls, '=' ∉ c.1) →
      ∃ es2 : List CStr, es2.length ≤ 31 ∧
        add_environments calls (env_layout es) = env_layout es2 ∧
        es2.map entry_key = (calls.map Prod.fst).foldl keys_step (es.map entry_key) := by
  induction calls with
  | nil => intro es h _; exact ⟨es, h, rfl, rfl⟩
  | cons c cs ih =>
    intro es h hk
    obtain ⟨es1, h1, e1, k1⟩ :=
      add_environment_keys c.1 c.2 es h (hk c (List.mem_cons_self _ _))
    obtain ⟨es2, h2, e2, k2⟩ := ih es1 h1 (fun d hd => hk d (List.mem_cons_of_mem _ hd))
    refine ⟨es2, h2, ?_, ?_⟩
    · simp only [add_environments, List.foldl_cons] at e2 ⊢
      rw [e1, e2]
    · simp only [List.map_cons, List.foldl_cons]
      rw [k2, k1]

theorem keys_step_length (ks : List CStr) (k : CStr) (h : ks.length ≤ 31) :
    (keys_step ks k).length ≤ 31 := by
  unfold keys_step
  split
  · exact h
  · split
    · simp only [List.length_append, List.length_singleton]; omega
    · exact h

theorem foldl_keys_step (keys : List CStr) :
    ∀ ks : List CStr, ks.length ≤ 31 →
      keys.foldl keys_step ks
        = (ks ++ (first_added keys).filter (fun x => decide (x ∉ ks))).take 31 := by
  induction keys with
  | nil =>
    intro ks h
    simp only [List.foldl_nil, first_added, List.filter_nil, List.append_nil]
    exact (List.take_of_length_le h).symm
  | cons k keys ih =>
    intro ks h
    simp only [List.foldl_cons, first_added]
    rw [ih _ (keys_step_length ks k h)]
    by_cases hk : k ∈ ks
    · have hf : ∀ x : CStr, (decide (x ∉ ks) && (x != k)) = decide (x ∉ ks) := by
        intro x
        by_cases hx : x ∈ ks
        · simp [hx]
        · have : x ≠ k := fun e => hx (e ▸ hk)
          simp [hx, this]
      simp only [keys_step, hk, if_true, List.filter_cons, not_true_eq_false, decide_False,
        Bool.false_eq_true, if_false, List.filter_filter, hf]
    · by_cases hl : ks.length < 31
      · have hf : ∀ x : CStr, decide (x ∉ ks ++ [k]) = (decide (x ∉ ks) && (x != k)) := by
          intro x
          by_cases hx : x ∈ ks <;> by_cases hxk : x = k <;> simp [hx, hxk]
        simp only [keys_step, hk, if_false, hl, if_true, List.filter_cons, not_false_eq_true,
          decide_True, List.filter_filter, hf, List.append_assoc, List.singleton_append]
      · have hl31 : ks.length = 31 := by omega
        simp only [keys_step, hk, if_false, hl]
        rw [List.take_append_of_le_length (by omega), List.take_append_of_le_length (by omega)]

theorem first_added_nodup (keys : List CStr) : (first_added keys).Nodup := by
  induction keys with
  | nil => exact List.nodup_nil
  | cons k keys ih =>
    simp only [first_added, List.nodup_cons]
    refine ⟨?_, ih.filter _⟩
    simp [List.mem_filter]

theorem env_layout_getElem_lt (es : List CStr) (j : Nat) (h : j < es.length) :
    (env_layout es)[j]? = some (some es[j]) := by
  unfold env_layout
  rw [List.getElem?_append_left (by simpa using h)]
  simp [h]

theorem env_layout_getElem_some (es : List CStr) (i : Nat) (e : CStr)
    (h : (env_layout es)[i]? = some (some e)) : ∃ hi : i < es.length, es[i] = e := by
  by_cases hi : i < es.length
  · refine ⟨hi, ?_⟩
    rw [env_layout_getElem_lt es i hi] at h
    simpa using h
  · exfalso
    unfold env_layout at h
    rw [List.getElem?_append_right (by simpa using hi)] at h
    rw [List.getElem?_replicate] at h
    split at h <;> simp at h

theorem env_layout_last (es : List CStr) (h : es.length ≤ 31) :
    (env_layout es)[31]? = some none := by
  unfold env_layout
  rw [List.getElem?_append_right (by simpa using h)]
  rw [List.getElem?_replicate]
  simp only [List.length_map]
  rw [if_pos (by omega)]

theorem env_layout_set (pre post : List CStr) (e kv : CStr) :
    (env_layout (pre ++ e :: post)).set pre.length (some kv)
      = env_layout (pre ++ kv :: post) := by
  have h := set_middle (pre.map some)
    (post.map some ++ List.replicate (32 - (pre ++ e :: post).length) none) (some e) (some kv)
  simp only [List.length_map] at h
  simp only [env_layout, List.map_append, List.map_cons, List.append_assoc, List.cons_append,
    List.length_append, List.length_cons] at h ⊢
  exact h

/-! ## The claims on the environment vector -/

/-- C1, counterexample: after `add_environment("A","1")` and
`add_environment("A=B","c")` the vector stores the two entries `A=1` and
`A=B=c`, whose keys (the text before the first `=`) are both `A`. -/
theorem add_environment_duplicate_key :
    stored (add_environments [("A".toList, "1".toList), ("A=B".toList, "c".toList)] ENV)
      = ["A=1".toList, "A=B=c".toList] ∧
    ¬ (stored_keys
        (add_environments [("A".toList, "1".toList), ("A=B".toList, "c".toList)] ENV)).Nodup := by
  decide

/-- C1, as amended: starting from the all-empty `ENV`, after every finite series
of `add_environment` calls whose keys contain no `=`, no two stored entries have
the same key, and the keys of the stored entries are, in slot order, the
distinct keys of the calls in the order of their first addition, cut off at the
capacity of 31 entries. -/
theorem add_environment_unique_keys (calls : List (CStr × CStr))
    (hkeys : ∀ c ∈ calls, '=' ∉ c.1) :
    (stored_keys (add_environments calls ENV)).Nodup ∧
    stored_keys (add_environments calls ENV)
      = (first_added (calls.map Prod.fst)).take 31 := by
  obtain ⟨es, _, henv, hks⟩ := add_environments_keys calls [] (by simp) hkeys
  rw [← ENV_eq_layout] at henv
  have hfold := foldl_keys_step (calls.map Prod.fst) [] (by simp)
  have heq : stored_keys (add_environments calls ENV)
      = (first_added (calls.map Prod.fst)).take 31 := by
    unfold stored_keys
    rw [henv, stored_env_layout, hks]
    simpa using hfold
  refine ⟨?_, heq⟩
  rw [heq]
  exact (first_added_nodup _).sublist (List.take_sublist _ _)

/-- C1, witness: three calls with the keys `PATH`, `HOME`, `PATH`. -/
theorem add_environment_unique_keys_witness :
    (∀ c ∈ [("PATH".toList, "/a".toList), ("HOME".toList, "/".toList),
        ("PATH".toList, "/b".toList)], '=' ∉ c.1) ∧
    (stored_keys (add_environments [("PATH".toList, "/a".toList), ("HOME".toList, "/".toList),
        ("PATH".toList, "/b".toList)] ENV)).Nodup ∧
    stored_keys (add_environments [("PATH".toList, "/a".toList), ("HOME".toList, "/".toList),
        ("PATH".toList, "/b".toList)] ENV)
      = (first_added ([("PATH".toList, "/a".toList), ("HOME".toList, "/".toList),
        ("PATH".toList, "/b".toList)].map Prod.fst)).take 31 :=
  ⟨by decide, add_environment_unique_keys _ (by decide)⟩

/-- C2, counterexample: in the reachable vector that stores `A=1` in slot 0 and
`A=B=c` in slot 1, the key `A` is stored at slot 1, yet `add_environment("A","x")`
leaves slot 1 as it is and overwrites slot 0. -/
theorem add_environment_replaces_other_slot :
    (add_environments [("A".toList, "1".toList), ("A=B".toList, "c".toList)] ENV)[1]?
      = some (some "A=B=c".toList) ∧
    entry_key "A=B=c".toList = "A".toList ∧
    (add_environment "A".toList "x".toList
      (add_environments [("A".toList, "1".toList), ("A=B".toList, "c".toList)] ENV)).2[1]?
      = some (some "A=B=c".toList) ∧
    (add_environment "A".toList "x".toList
      (add_environments [("A".toList, "1".toList), ("A=B".toList, "c".toList)] ENV)).2[0]?
      = some (some "A=x".toList) := by
  decide

/-- C2, as amended: for every environment vector reachable from the empty one and
every key whose first stored entry is at slot `i` (slot `i` holds an entry with
that key and no earlier slot does), `add_environment(key, val)` returns 0, makes
slot `i` equal to `key=val` and leaves every other slot unchanged; and
`add_environment("PATH","/a")` followed by `add_environment("PATH","/b")` leaves
exactly one entry, `PATH=/b`. -/
theorem add_environment_replace_in_place :
    (∀ (calls : List (CStr × CStr)) (key val e : CStr) (i : Nat),
      (add_environments calls ENV)[i]? = some (some e) →
      entry_key e = key →
      (∀ (j : Nat) (e2 : CStr), j < i →
        (add_environments calls ENV)[j]? = some (some e2) → entry_key e2 ≠ key) →
      add_environment key val (add_environments calls ENV)
        = (0, (add_environments calls ENV).set i (some (asprintf_entry key val)))) ∧
    stored (add_environments [("PATH".toList, "/a".toList), ("PATH".toList, "/b".toList)] ENV)
      = ["PATH=/b".toList] := by
  refine ⟨?_, by decide⟩
  intro calls key val e i hi hkey hfirst
  obtain ⟨es, hlen, henv⟩ := add_environments_layout calls [] (by simp)
  rw [← ENV_eq_layout] at henv
  rw [henv] at hi hfirst ⊢
  obtain ⟨hlt, hei⟩ := env_layout_getElem_some es i e hi
  have hsplit : es = es.take i ++ e :: es.drop (i + 1) := by
    rw [← hei, List.getElem_cons_drop es i hlt, List.take_append_drop]
  have hpre : ∀ x ∈ es.take i, entry_key x ≠ key := by
    intro x hx
    obtain ⟨j, hj, hxj⟩ := List.getElem_of_mem hx
    have hj2 : j < i ∧ j < es.length := by
      simpa [List.length_take] using hj
    rw [List.getElem_take] at hxj
    exact hfirst j x hj2.1 (by rw [env_layout_getElem_lt es j hj2.2, hxj])
  have hlen2 : (es.take i ++ e :: es.drop (i + 1)).length ≤ 31 := by rw [← hsplit]; exact hlen
  have hrep := add_environment_replace key val e (es.take i) (es.drop (i + 1)) hlen2 hpre hkey
  have hset := env_layout_set (es.take i) (es.drop (i + 1)) e (asprintf_entry key val)
  have hti : (es.take i).length = i := by
    rw [List.length_take]; omega
  rw [hti, ← hsplit] at hset
  rw [← hsplit] at hrep
  rw [hrep, hset]

/-- C2, witness: the vector left by `PATH=/a`, `HOME=/`, and the key `HOME`
stored at slot 1. -/
theorem add_environment_replace_in_place_witness :
    add_environment "HOME".toList "/root".toList
        (add_environments [("PATH".toList, "/a".toList), ("HOME".toList, "/".toList)] ENV)
      = (0, (add_environments [("PATH".toList, "/a".toList), ("HOME".toList, "/".toList)]
              ENV).set 1 (some (asprintf_entry "HOME".toList "/root".toList))) :=
  add_environment_replace_in_place.1
    [("PATH".toList, "/a".toList), ("HOME".toList, "/".toList)]
    "HOME".toList "/root".toList "HOME=/".toList 1 (by decide) (by decide)
    (by
      intro j e2 hj h
      have hj0 : j = 0 := by omega
      subst hj0
      have h0 : (add_environments [("PATH".toList, "/a".toList), ("HOME".toList, "/".toList)]
          ENV)[0]? = some (some "PATH=/a".toList) := by decide
      rw [h0] at h
      simp only [Option.some.injEq] at h
      subst h
      decide)

/-- C3, counterexample: after the 31 calls of `filling_calls` the vector stores
31 entries but only 30 distinct keys (`A=1` and `A=B=c` share the key `A`); the
key `Z` is not stored, and `add_environment("Z","z")` returns -1, not 0. -/
theorem add_environment_full_with_fewer_keys :
    (stored (add_environments filling_calls ENV)).length = 31 ∧
    (stored_keys (add_environments filling_calls ENV)).toFinset.card = 30 ∧
    "Z".toList ∉ stored_keys (add_environments filling_calls ENV) ∧
    (add_environment "Z".toList "z".toList (add_environments filling_calls ENV)).1 = -1 := by
  set_option maxRecDepth 100000 in decide

/-- C3, as amended: in every reachable vector at most 31 entries are stored and
the last slot (index 31) is still `NULL`; when 31 entries are stored (slots 0 to
30 are all occupied), `add_environment` with a key that is not stored returns -1
and leaves the vector unchanged, and in every other reachable state
`add_environment` returns 0. -/
theorem add_environment_capacity (calls : List (CStr × CStr)) (key val : CStr) :
    (stored (add_environments calls ENV)).length ≤ 31 ∧
    (add_environments calls ENV)[31]? = some none ∧
    ((stored (add_environments calls ENV)).length = 31 ∧
        key ∉ stored_keys (add_environments calls ENV) →
      add_environment key val (add_environments calls ENV)
        = (-1, add_environments calls ENV)) ∧
    (¬ ((stored (add_environments calls ENV)).length = 31 ∧
        key ∉ stored_keys (add_environments calls ENV)) →
      (add_environment key val (add_environments calls ENV)).1 = 0) := by
  obtain ⟨es, hlen, henv⟩ := add_environments_layout calls [] (by simp)
  rw [← ENV_eq_layout] at henv
  simp only [henv, stored_keys, stored_env_layout]
  refine ⟨hlen, env_layout_last es hlen, ?_, ?_⟩
  · rintro ⟨h31, hnot⟩
    refine add_environment_full key val es h31 ?_
    intro x hx hk
    exact hnot (List.mem_map.2 ⟨x, hx, hk⟩)
  · intro hnot
    rcases add_environment_cases key val es hlen with
      ⟨_, _, _, _, _, _, h⟩ | ⟨_, _, h⟩ | ⟨hno, h31, _⟩
    · rw [h]
    · rw [h]
    · exfalso
      apply hnot
      refine ⟨h31, ?_⟩
      intro hm
      obtain ⟨x, hx, hxk⟩ := List.mem_map.1 hm
      exact hno x hx hxk

/-- C3, witness: a full vector and the key `Z`, which is not stored. -/
theorem add_environment_capacity_witness :
    add_environment "Z".toList "z".toList (add_environments filling_calls ENV)
      = (-1, add_environments filling_calls ENV) :=
  (add_environment_capacity filling_calls "Z".toList "z".toList).2.2.1
    (by set_option maxRecDepth 100000 in decide)

/-! ## The claims on property waits and property triggers -/

theorem property_changed_latch (name value : CStr) (s : InitState) :
    (property_changed name value s).property_triggers_enabled = s.property_triggers_enabled := by
  unfold property_changed
  dsimp only
  split_ifs <;> rfl

theorem property_changed_queue (name value : CStr) (s : InitState) :
    (property_changed name value s).queued_property_triggers
      = if s.property_triggers_enabled ≠ 0 then s.queued_property_triggers ++ [(name, value)]
        else s.queued_property_triggers := by
  unfold property_changed
  dsimp only
  split_ifs <;> rfl

theorem property_changed_other (name value : CStr) (s : InitState)
    (h : ¬ (s.wait_prop_name = name ∧ s.wait_prop_value = value)) :
    (property_changed name value s).waiting_for_prop = s.waiting_for_prop ∧
    (property_changed name value s).wait_prop_name = s.wait_prop_name ∧
    (property_changed name value s).wait_prop_value = s.wait_prop_value := by
  unfold property_changed
  dsimp only
  split_ifs <;> exact ⟨rfl, rfl, rfl⟩

theorem property_changed_match (name value : CStr) (s : InitState)
    (hw : s.waiting_for_prop.isSome = true)
    (h : s.wait_prop_name = name ∧ s.wait_prop_value = value) :
    (property_changed name value s).waiting_for_prop = none ∧
    (property_changed name value s).wait_prop_name = [] ∧
    (property_changed name value s).wait_prop_value = [] := by
  unfold property_changed
  dsimp only
  split_ifs <;> exact ⟨rfl, rfl, rfl⟩

theorem property_broadcasts_keep (n v : CStr) (pre : List (CStr × CStr)) :
    ∀ s : InitState, s.wait_prop_name = n → s.wait_prop_value = v → (n, v) ∉ pre →
      (property_broadcasts pre s).waiting_for_prop = s.waiting_for_prop ∧
      (property_broadcasts pre s).wait_prop_name = n ∧
      (property_broadcasts pre s).wait_prop_value = v := by
  induction pre with
  | nil => intro s hn hv _; exact ⟨rfl, hn, hv⟩
  | cons b bs ih =>
    intro s hn hv hnot
    have hb : ¬ (s.wait_prop_name = b.1 ∧ s.wait_prop_value = b.2) := by
      rintro ⟨h1, h2⟩
      apply hnot
      rw [← hn, ← hv, h1, h2]
      exact List.mem_cons_self _ _
    have hbs : (n, v) ∉ bs := fun hm => hnot (List.mem_cons_of_mem _ hm)
    obtain ⟨k1, k2, k3⟩ := property_changed_other b.1 b.2 s hb
    obtain ⟨r1, r2, r3⟩ := ih (property_changed b.1 b.2 s) (k2.trans hn) (k3.trans hv) hbs
    simp only [property_broadcasts, List.foldl_cons] at r1 r2 r3 ⊢
    exact ⟨r1.trans k1, r2, r3⟩

theorem property_broadcasts_append (pre post : List (CStr × CStr)) (s : InitState) :
    property_broadcasts (pre ++ post) s = property_broadcasts post (property_broadcasts pre s) := by
  simp [property_broadcasts, List.foldl_append]

theorem start_waiting_for_property_differs (property_get : CStr → CStr) (now : Nat)
    (n v : CStr) (s : InitState) (hidle : s.waiting_for_prop = none)
    (hne : property_get n ≠ v) :
    (start_waiting_for_property property_get now n v s).2
      = { s with wait_prop_name := n, wait_prop_value := v, waiting_for_prop := some ⟨now⟩ } := by
  unfold start_waiting_for_property
  simp [hidle, hne]

/-- C4: when no property wait is active, `start_waiting_for_property(n, v)`
returns true; it installs the wait (`wait_prop_name = n`, `wait_prop_value = v`,
timer set) when the live value `property_get(n)` differs from `v`, and leaves the
state as it was, with no wait, when `property_get(n) = v`; so a wait is
installed if and only if the live value differed from `v` at that instant. -/
theorem start_waiting_for_property_installs (property_get : CStr → CStr) (now : Nat)
    (n v : CStr) (s : InitState) (hidle : s.waiting_for_prop = none) :
    (start_waiting_for_property property_get now n v s).1 = true ∧
    (property_get n ≠ v →
      (start_waiting_for_property property_get now n v s).2
        = { s with wait_prop_name := n, wait_prop_value := v, waiting_for_prop := some ⟨now⟩ }) ∧
    (property_get n = v →
      (start_waiting_for_property property_get now n v s).2 = s ∧
      (start_waiting_for_property property_get now n v s).2.waiting_for_prop = none) ∧
    ((start_waiting_for_property property_get now n v s).2.waiting_for_prop.isSome = true
      ↔ property_get n ≠ v) := by
  unfold start_waiting_for_property
  by_cases h : property_get n = v <;> simp [hidle, h]

/-- C4, witness: the initial state, in which no wait is active, and a property
store whose every value is empty. -/
theorem start_waiting_for_property_installs_witness :
    InitState.initial.waiting_for_prop = none ∧
    (start_waiting_for_property (fun _ => []) 7 "sys.boot".toList "1".toList
      InitState.initial).1 = true :=
  ⟨rfl, (start_waiting_for_property_installs (fun _ => []) 7 "sys.boot".toList "1".toList
    InitState.initial rfl).1⟩

/-- C5: while a wait is active, `property_changed(n2, v2)` clears it (timer reset,
stored name and value emptied) if and only if `n2` and `v2` are the awaited name
and value, and every other broadcast leaves the wait state unchanged; so after
`start_waiting_for_property(n, v)` issued with no wait active and
`property_get(n) ≠ v`, for every series of broadcasts without `(n, v)` the wait
for `(n, v)` is still active, and the broadcast of `(n, v)` that follows leaves
no wait. -/
theorem property_changed_clears_wait :
    (∀ (n2 v2 : CStr) (s : InitState), s.waiting_for_prop.isSome = true →
      ((property_changed n2 v2 s).waiting_for_prop = none
        ↔ (s.wait_prop_name = n2 ∧ s.wait_prop_value = v2)) ∧
      (s.wait_prop_name = n2 ∧ s.wait_prop_value = v2 →
        (property_changed n2 v2 s).wait_prop_name = [] ∧
        (property_changed n2 v2 s).wait_prop_value = []) ∧
      (¬ (s.wait_prop_name = n2 ∧ s.wait_prop_value = v2) →
        (property_changed n2 v2 s).waiting_for_prop = s.waiting_for_prop ∧
        (property_changed n2 v2 s).wait_prop_name = s.wait_prop_name ∧
        (property_changed n2 v2 s).wait_prop_value = s.wait_prop_value)) ∧
    (∀ (property_get : CStr → CStr) (now : Nat) (n v : CStr) (s : InitState)
        (pre : List (CStr × CStr)),
      s.waiting_for_prop = none → property_get n ≠ v → (n, v) ∉ pre →
      ((property_broadcasts pre
          (start_waiting_for_property property_get now n v s).2).waiting_for_prop = some ⟨now⟩ ∧
        (property_broadcasts pre
          (start_waiting_for_property property_get now n v s).2).wait_prop_name = n ∧
        (property_broadcasts pre
          (start_waiting_for_property property_get now n v s).2).wait_prop_value = v) ∧
      ((property_broadcasts (pre ++ [(n, v)])
          (start_waiting_for_property property_get now n v s).2).waiting_for_prop = none ∧
        (property_broadcasts (pre ++ [(n, v)])
          (start_waiting_for_property property_get now n v s).2).wait_prop_name = [] ∧
        (property_broadcasts (pre ++ [(n, v)])
          (start_waiting_for_property property_get now n v s).2).wait_prop_value = [])) := by
  constructor
  · intro n2 v2 s hw
    refine ⟨⟨?_, ?_⟩, ?_, ?_⟩
    · intro hnone
      by_contra hne
      have h := (property_changed_other n2 v2 s hne).1
      rw [hnone] at h
      rw [← h] at hw
      simp at hw
    · intro h
      exact (property_changed_match n2 v2 s hw h).1
    · intro h
      exact (property_changed_match n2 v2 s hw h).2
    · intro h
      exact property_changed_other n2 v2 s h
  · intro property_get now n v s pre hidle hne hpre
    have hstart := start_waiting_for_property_differs property_get now n v s hidle hne
    have hkeep := property_broadcasts_keep n v pre
      (start_waiting_for_property property_get now n v s).2
      (by rw [hstart]) (by rw [hstart]) hpre
    have hw0 : (start_waiting_for_property property_get now n v s).2.waiting_for_prop
        = some ⟨now⟩ := by rw [hstart]
    obtain ⟨k1, k2, k3⟩ := hkeep
    refine ⟨⟨k1.trans hw0, k2, k3⟩, ?_⟩
    rw [property_broadcasts_append]
    have hsome : (property_broadcasts pre
        (start_waiting_for_property property_get now n v s).2).waiting_for_prop.isSome = true := by
      rw [k1, hw0]; rfl
    exact property_changed_match n v _ hsome ⟨k2, k3⟩

/-- C5, witness: a wait for `sys.boot = 1` installed in the initial state, one
unrelated broadcast, then the awaited one. -/
theorem property_changed_clears_wait_witness :
    (property_broadcasts [("sys.boot".toList, "0".toList)]
        (start_waiting_for_property (fun _ => []) 7 "sys.boot".toList "1".toList
          InitState.initial).2).waiting_for_prop = some ⟨7⟩ ∧
    (property_broadcasts ([("sys.boot".toList, "0".toList)] ++ [("sys.boot".toList, "1".toList)])
        (start_waiting_for_property (fun _ => []) 7 "sys.boot".toList "1".toList
          InitState.initial).2).waiting_for_prop = none :=
  have h := property_changed_clears_wait.2 (fun _ => []) 7 "sys.boot".toList "1".toList
    InitState.initial [("sys.boot".toList, "0".toList)] rfl (by decide) (by decide)
  ⟨h.1.1, h.2.1⟩

theorem run_latch_change (c : InitCall) (s : InitState)
    (h : (c.run s).property_triggers_enabled ≠ s.property_triggers_enabled) :
    c.is_enable = true := by
  cases c with
  | start_waiting_for_exec now =>
    exfalso; apply h
    simp only [InitCall.run, start_waiting_for_exec]
    split_ifs <;> rfl
  | stop_waiting_for_exec =>
    exfalso; apply h
    simp only [InitCall.run, stop_waiting_for_exec]
    split_ifs <;> rfl
  | start_waiting_for_property cur now name value =>
    exfalso; apply h
    simp only [InitCall.run, start_waiting_for_property]
    split_ifs <;> rfl
  | property_changed name value =>
    exfalso; apply h
    exact property_changed_latch name value s
  | property_enable_triggers_action args => rfl

theorem run_latch_stays (c : InitCall) (s : InitState) (h : s.property_triggers_enabled ≠ 0) :
    (c.run s).property_triggers_enabled ≠ 0 := by
  by_cases hc : (c.run s).property_triggers_enabled = s.property_triggers_enabled
  · rw [hc]; exact h
  · have he := run_latch_change c s hc
    cases c <;> simp [InitCall.is_enable] at he
    simp [InitCall.run, property_enable_triggers_action]

theorem run_queue_before_latch (c : InitCall) (s : InitState)
    (h : s.property_triggers_enabled = 0) :
    (c.run s).queued_property_triggers = s.queued_property_triggers := by
  cases c with
  | start_waiting_for_exec now =>
    simp only [InitCall.run, start_waiting_for_exec]
    split_ifs <;> rfl
  | stop_waiting_for_exec =>
    simp only [InitCall.run, stop_waiting_for_exec]
    split_ifs <;> rfl
  | start_waiting_for_property cur now name value =>
    simp only [InitCall.run, start_waiting_for_property]
    split_ifs <;> rfl
  | property_changed name value =>
    simp only [InitCall.run]
    rw [property_changed_queue, if_neg (by simp [h])]
  | property_enable_triggers_action args => rfl

theorem run_calls_before_latch (cs : List InitCall) :
    ∀ s : InitState, s.property_triggers_enabled = 0 → (∀ c ∈ cs, c.is_enable = false) →
      (run_calls cs s).property_triggers_enabled = 0 ∧
      (run_calls cs s).queued_property_triggers = s.queued_property_triggers := by
  induction cs with
  | nil => intro s h _; exact ⟨h, rfl⟩
  | cons c cs ih =>
    intro s h hcs
    have hc : c.is_enable = false := hcs c (List.mem_cons_self _ _)
    have hl : (c.run s).property_triggers_enabled = 0 := by
      by_contra hne
      have hch : (c.run s).property_triggers_enabled ≠ s.property_triggers_enabled := by
        rw [h]; exact hne
      have := run_latch_change c s hch
      rw [hc] at this
      cases this
    obtain ⟨r1, r2⟩ := ih (c.run s) hl (fun d hd => hcs d (List.mem_cons_of_mem _ hd))
    simp only [run_calls, List.foldl_cons] at r1 r2 ⊢
    exact ⟨r1, r2.trans (run_queue_before_latch c s h)⟩

/-- C6: `property_changed(name, value)` hands `(name, value)` to
`QueuePropertyTrigger` if and only if the latch `property_triggers_enabled` is
set; the latch starts unset, `property_enable_triggers_action` sets it, no other
call changes it, and once set it stays set; so after any series of calls from
program start that has no `property_enable_triggers_action`, no property
trigger has been queued. -/
theorem property_trigger_gating :
    (∀ (name value : CStr) (s : InitState),
      (s.property_triggers_enabled ≠ 0 →
        (property_changed name value s).queued_property_triggers
          = s.queued_property_triggers ++ [(name, value)]) ∧
      (s.property_triggers_enabled = 0 →
        (property_changed name value s).queued_property_triggers
          = s.queued_property_triggers)) ∧
    InitState.initial.property_triggers_enabled = 0 ∧
    (∀ (args : List CStr) (s : InitState),
      (property_enable_triggers_action args s).2.property_triggers_enabled = 1) ∧
    (∀ (c : InitCall) (s : InitState),
      (c.run s).property_triggers_enabled ≠ s.property_triggers_enabled → c.is_enable = true) ∧
    (∀ (c : InitCall) (s : InitState),
      s.property_triggers_enabled ≠ 0 → (c.run s).property_triggers_enabled ≠ 0) ∧
    (∀ cs : List InitCall, (∀ c ∈ cs, c.is_enable = false) →
      (run_calls cs InitState.initial).property_triggers_enabled = 0 ∧
      (run_calls cs InitState.initial).queued_property_triggers = []) := by
  refine ⟨?_, rfl, fun _ _ => rfl, run_latch_change, run_latch_stays, ?_⟩
  · intro name value s
    constructor
    · intro h
      rw [property_changed_queue, if_pos h]
    · intro h
      rw [property_changed_queue, if_neg (by simp [h])]
  · intro cs hcs
    exact run_calls_before_latch cs InitState.initial rfl hcs

/-- C6, witness: a wait request and two broadcasts from program start, none of
them the enabling action. -/
theorem property_trigger_gating_witness :
    (run_calls [.start_waiting_for_property [] 3 "sys.boot".toList "1".toList,
        .property_changed "sys.boot".toList "0".toList,
        .property_changed "sys.boot".toList "1".toList]
      InitState.initial).queued_property_triggers = [] :=
  (property_trigger_gating.2.2.2.2.2
    [.start_waiting_for_property [] 3 "sys.boot".toList "1".toList,
      .property_changed "sys.boot".toList "0".toList,
      .property_changed "sys.boot".toList "1".toList] (by decide)).2

/-! ## The claims on `get_early_partitions` -/

theorem basename_ne_nil (path : CStr) : basename path ≠ [] := by
  unfold basename
  by_cases h1 : path = []
  · simp [h1]
  · simp only [h1, if_false]
    cases ht : List.dropWhile (fun c => c == '/') path.reverse with
    | nil => simp
    | cons c cs =>
      have hc := List.head_dropWhile_not (fun c => c == '/') path.reverse (by rw [ht]; simp)
      simp only [ht, List.head_cons] at hc
      have hne : (c != '/') = true := by
        simp only [beq_iff_eq, Bool.not_eq_true, beq_eq_false_iff_ne] at hc
        simpa using hc
      simp only [reduceCtorEq, if_false, List.takeWhile_cons, hne, if_true]
      simp

theorem check_verifyatboot (fm : FsMgr) (rows : List fstab_rec) :
    ∀ (mp : CStr) (nv : Bool), (∃ r ∈ rows, fm.fs_mgr_is_verifyatboot r = true) →
      (get_early_partitions_check fm rows mp nv).1 = false := by
  induction rows with
  | nil => intro mp nv h; obtain ⟨r, hr, _⟩ := h; cases hr
  | cons r rs ih =>
    intro mp nv h
    unfold get_early_partitions_check
    by_cases hr : fm.fs_mgr_is_verifyatboot r = true
    · simp [hr]
    · have hrs : ∃ x ∈ rs, fm.fs_mgr_is_verifyatboot x = true := by
        obtain ⟨x, hx, hxv⟩ := h
        rcases List.mem_cons.1 hx with rfl | hx
        · exact absurd hxv hr
        · exact ⟨x, hx, hxv⟩
      simp only [hr, Bool.false_eq_true, if_false]
      cases hloc : r.verity_loc with
      | none => exact ih _ _ hrs
      | some loc =>
        dsimp only
        by_cases hmp : mp = []
        · simp only [hmp, ne_eq, not_true_eq_false, if_false]
          exact ih _ _ hrs
        · simp only [ne_eq, hmp, not_false_eq_true, if_true]

theorem check_second_meta (fm : FsMgr) (rows : List fstab_rec) :
    ∀ (mp : CStr) (nv : Bool), mp ≠ [] → (∃ r ∈ rows, r.verity_loc ≠ none) →
      (get_early_partitions_check fm rows mp nv).1 = false := by
  induction rows with
  | nil => intro mp nv _ h; obtain ⟨r, hr, _⟩ := h; cases hr
  | cons r rs ih =>
    intro mp nv hmp h
    unfold get_early_partitions_check
    by_cases hr : fm.fs_mgr_is_verifyatboot r = true
    · simp [hr]
    · simp only [hr, Bool.false_eq_true, if_false]
      cases hloc : r.verity_loc with
      | none =>
        have hrs : ∃ x ∈ rs, x.verity_loc ≠ none := by
          obtain ⟨x, hx, hxl⟩ := h
          rcases List.mem_cons.1 hx with rfl | hx
          · exact absurd hloc hxl
          · exact ⟨x, hx, hxl⟩
        exact ih _ _ hmp hrs
      | some loc =>
        dsimp only
        rw [if_pos hmp]

theorem check_two_metas (fm : FsMgr) (rows : List fstab_rec) :
    ∀ (mp : CStr) (nv : Bool),
      (∃ r1 ∈ rows, ∃ r2 ∈ rows, ∃ a b : CStr,
        r1.verity_loc = some a ∧ r2.verity_loc = some b ∧ a ≠ b) →
      (get_early_partitions_check fm rows mp nv).1 = false := by
  induction rows with
  | nil => intro mp nv h; obtain ⟨r, hr, _⟩ := h; cases hr
  | cons r rs ih =>
    intro mp nv h
    obtain ⟨r1, h1, r2, h2, a, b, ha, hb, hab⟩ := h
    unfold get_early_partitions_check
    by_cases hr : fm.fs_mgr_is_verifyatboot r = true
    · simp [hr]
    · simp only [hr, Bool.false_eq_true, if_false]
      cases hloc : r.verity_loc with
      | none =>
        have m1 : r1 ∈ rs := by
          rcases List.mem_cons.1 h1 with rfl | hx
          · rw [hloc] at ha; cases ha
          · exact hx
        have m2 : r2 ∈ rs := by
          rcases List.mem_cons.1 h2 with rfl | hx
          · rw [hloc] at hb; cases hb
          · exact hx
        exact ih _ _ ⟨r1, m1, r2, m2, a, b, ha, hb, hab⟩
      | some loc =>
        dsimp only
        by_cases hmp : mp = []
        swap
        · simp only [ne_eq, hmp, not_false_eq_true, if_true]
        · simp only [hmp, ne_eq, not_true_eq_false, if_false]
          have hrs : ∃ x ∈ rs, x.verity_loc ≠ none := by
            rcases List.mem_cons.1 h1 with e1 | m1
            · rcases List.mem_cons.1 h2 with e2 | m2
              · exfalso
                apply hab
                rw [e1] at ha; rw [e2] at hb
                rw [ha] at hb
                exact Option.some.inj hb
              · exact ⟨r2, m2, by rw [hb]; simp⟩
            · exact ⟨r1, m1, by rw [ha]; simp⟩
          exact check_second_meta fm rs _ _ (basename_ne_nil loc) hrs

theorem get_early_partitions_ret (fm : FsMgr) (rows : List fstab_rec) :
    (get_early_partitions fm rows).ret = (get_early_partitions_check fm rows [] false).1 := by
  unfold get_early_partitions
  split <;> rename_i h <;> rw [h]

theorem get_early_partitions_fail_empty (fm : FsMgr) (rows : List fstab_rec)
    (h : (get_early_partitions fm rows).ret = false) :
    (get_early_partitions fm rows).out_partitions = ∅ := by
  unfold get_early_partitions at h ⊢
  split
  · rfl
  · rename_i hc
    rw [hc] at h
    simp at h

/-- C7, the code at the failing input: `/system` and `/vendor` are both verified
and both name `/dev/block/sda4` as their verity-metadata partition, so that one
distinct `verity_loc` occurs and no row is flagged verify-at-boot; the call
returns false and leaves `out_partitions` empty, where the claim has it return
true with the set `sda1`, `sda2`, `sda4`. -/
theorem get_early_partitions_rejects_shared_meta :
    (∀ r ∈ shared_meta_rows, example_fs_mgr.fs_mgr_is_verifyatboot r = false) ∧
    (shared_meta_rows.filterMap (fun r => r.verity_loc)).toFinset
      = {"/dev/block/sda4".toList} ∧
    (get_early_partitions example_fs_mgr shared_meta_rows).ret = false ∧
    (get_early_partitions example_fs_mgr shared_meta_rows).out_partitions = ∅ := by
  decide

/-- C8: `get_early_partitions` returns false if some row is flagged
verify-at-boot, and returns false if two rows name different `verity_loc`; on
every call that returns false `out_partitions` is left empty. -/
theorem get_early_partitions_rejects (fm : FsMgr) (rows : List fstab_rec) :
    ((∃ r ∈ rows, fm.fs_mgr_is_verifyatboot r = true) →
      (get_early_partitions fm rows).ret = false) ∧
    ((∃ r1 ∈ rows, ∃ r2 ∈ rows, ∃ a b : CStr,
        r1.verity_loc = some a ∧ r2.verity_loc = some b ∧ a ≠ b) →
      (get_early_partitions fm rows).ret = false) ∧
    ((get_early_partitions fm rows).ret = false →
      (get_early_partitions fm rows).out_partitions = ∅) := by
  refine ⟨?_, ?_, get_early_partitions_fail_empty fm rows⟩
  · intro h
    rw [get_early_partitions_ret]
    exact check_verifyatboot fm rows [] false h
  · intro h
    rw [get_early_partitions_ret]
    exact check_two_metas fm rows [] false h

/-- C8, witness: a single row flagged verify-at-boot. -/
theorem get_early_partitions_rejects_witness :
    (get_early_partitions example_fs_mgr
      [{ blk_device := "/dev/block/sda1".toList, mount_point := "/vendor".toList,
         fs_mgr_flags := 2, verity_loc := none }]).ret = false :=
  (get_early_partitions_rejects example_fs_mgr
    [{ blk_device := "/dev/block/sda1".toList, mount_point := "/vendor".toList,
       fs_mgr_flags := 2, verity_loc := none }]).1 ⟨_, List.mem_singleton.2 rfl, by decide⟩

/-- Scenario E4 on the code: the three rows give the partitions `sda1`, `sda2`,
`sda3`, `sda4` and `need_verity = true`. -/
theorem get_early_partitions_example :
    (get_early_partitions example_fs_mgr example_rows).ret = true ∧
    (get_early_partitions example_fs_mgr example_rows).out_partitions
      = {"sda1".toList, "sda2".toList, "sda3".toList, "sda4".toList} ∧
    (get_early_partitions example_fs_mgr example_rows).out_need_verity = true := by
  decide

theorem check_accepts (fm : FsMgr) (rows : List fstab_rec) :
    ∀ (mp : CStr) (nv : Bool), (∀ r ∈ rows, fm.fs_mgr_is_verifyatboot r = false) →
      (rows.filterMap (fun r => r.verity_loc) = [] →
        get_early_partitions_check fm rows mp nv
          = (true, mp, nv || rows.any fm.fs_mgr_is_verified)) ∧
      (∀ l : CStr, rows.filterMap (fun r => r.verity_loc) = [l] → mp = [] →
        get_early_partitions_check fm rows mp nv
          = (true, basename l, nv || rows.any fm.fs_mgr_is_verified)) := by
  induction rows with
  | nil =>
    intro mp nv _
    refine ⟨fun _ => by simp [get_early_partitions_check], fun l h => ?_⟩
    simp at h
  | cons r rs ih =>
    intro mp nv hv
    have hr : fm.fs_mgr_is_verifyatboot r = false := hv r (List.mem_cons_self _ _)
    have hrs : ∀ x ∈ rs, fm.fs_mgr_is_verifyatboot x = false :=
      fun x hx => hv x (List.mem_cons_of_mem _ hx)
    have hnv : ∀ b : Bool, ((if fm.fs_mgr_is_verified r = true then true else b)
        || rs.any fm.fs_mgr_is_verified)
          = (b || (r :: rs).any fm.fs_mgr_is_verified) := by
      intro b
      simp only [List.any_cons]
      cases fm.fs_mgr_is_verified r <;> cases b <;> simp
    unfold get_early_partitions_check
    simp only [hr, Bool.false_eq_true, if_false]
    cases hloc : r.verity_loc with
    | none =>
      dsimp only
      constructor
      · intro h
        have h2 : rs.filterMap (fun r => r.verity_loc) = [] := by
          simpa [List.filterMap_cons, hloc] using h
        rw [(ih mp _ hrs).1 h2, hnv]
      · intro l h hmp
        have h2 : rs.filterMap (fun r => r.verity_loc) = [l] := by
          simpa [List.filterMap_cons, hloc] using h
        rw [(ih mp _ hrs).2 l h2 hmp, hnv]
    | some loc =>
      dsimp only
      constructor
      · intro h
        simp [List.filterMap_cons, hloc] at h
      · intro l h hmp
        have h2 : loc = l ∧ rs.filterMap (fun r => r.verity_loc) = [] := by
          simpa [List.filterMap_cons, hloc] using h
        simp only [hmp, ne_eq, not_true_eq_false, if_false]
        rw [(ih (basename loc) _ hrs).1 h2.2, hnv, h2.1]

theorem foldl_insert_basename (rows : List fstab_rec) :
    ∀ s : Finset CStr,
      rows.foldl (fun s r => insert (basename r.blk_device) s) s
        = s ∪ (rows.map (fun r => basename r.blk_device)).toFinset := by
  induction rows with
  | nil => intro s; simp
  | cons r rs ih =>
    intro s
    simp only [List.foldl_cons, List.map_cons, List.toFinset_cons]
    rw [ih]
    ext x
    simp only [Finset.mem_union, Finset.mem_insert]
    tauto

/-- The part of C7 that the code keeps: when no row is flagged verify-at-boot and
at most one row has a `verity_loc`, `get_early_partitions` returns true, with the
basenames of the block devices and of that `verity_loc` as `out_partitions`, and
`out_need_verity` true exactly when some row is verified. -/
theorem get_early_partitions_closure (fm : FsMgr) (rows : List fstab_rec)
    (hvab : ∀ r ∈ rows, fm.fs_mgr_is_verifyatboot r = false)
    (hone : (rows.filterMap (fun r => r.verity_loc)).length ≤ 1) :
    (get_early_partitions fm rows).ret = true ∧
    (get_early_partitions fm rows).out_partitions
      = (rows.map (fun r => basename r.blk_device)).toFinset ∪
        ((rows.filterMap (fun r => r.verity_loc)).map basename).toFinset ∧
    (get_early_partitions fm rows).out_need_verity = rows.any fm.fs_mgr_is_verified := by
  obtain ⟨h0, h1⟩ := check_accepts fm rows [] false hvab
  cases hl : rows.filterMap (fun r => r.verity_loc) with
  | nil =>
    have hc := h0 hl
    unfold get_early_partitions
    rw [hc]
    simp [foldl_insert_basename]
  | cons l ls =>
    have hls : ls = [] := by
      rw [hl] at hone
      simp only [List.length_cons] at hone
      exact List.length_eq_zero.1 (by omega)
    subst hls
    have hc := h1 l hl rfl
    unfold get_early_partitions
    rw [hc]
    simp only [ne_eq, basename_ne_nil, not_false_eq_true, if_true, foldl_insert_basename,
      Bool.false_or, List.map_cons, List.map_nil, List.toFinset_cons, List.toFinset_nil,
      true_and, and_true]
    ext x
    simp only [Finset.mem_union, Finset.mem_insert, Finset.not_mem_empty, or_false, false_or,
      List.mem_toFinset, insert_emptyc_eq, Finset.mem_singleton]
    tauto

/-! ## The claims on policy selection -/

theorem find_precompiled_match (w : PolicyWorld)
    (hacc : w.access_r precompiled_sepolicy = true)
    (hsha : ∃ c1 c2 : CStr, w.ReadFileToString plat_sepolicy_cil_sha256 = some c1 ∧
      w.ReadFileToString precompiled_sepolicy_plat_sha256 = some c2 ∧
      first_line c1 = first_line c2 ∧ first_line c1 ≠ []) :
    selinux_find_precompiled_split_policy w = (true, precompiled_sepolicy) := by
  obtain ⟨c1, c2, h1, h2, heq, hne⟩ := hsha
  unfold selinux_find_precompiled_split_policy read_first_line
  simp only [hacc, Bool.not_true, Bool.false_eq_true, if_false, h1, h2]
  rw [if_neg]
  rintro (h | h)
  · exact hne h
  · exact h heq

theorem find_precompiled_mismatch (w : PolicyWorld)
    (hbad : w.ReadFileToString plat_sepolicy_cil_sha256 = none ∨
      w.ReadFileToString precompiled_sepolicy_plat_sha256 = none ∨
      ∃ c1 c2 : CStr, w.ReadFileToString plat_sepolicy_cil_sha256 = some c1 ∧
        w.ReadFileToString precompiled_sepolicy_plat_sha256 = some c2 ∧
        (first_line c1 = [] ∨ first_line c2 = [] ∨ first_line c1 ≠ first_line c2)) :
    (selinux_find_precompiled_split_policy w).1 = false := by
  unfold selinux_find_precompiled_split_policy read_first_line
  by_cases hacc : w.access_r precompiled_sepolicy = true
  swap
  · simp [hacc]
  · simp only [hacc, Bool.not_true, Bool.false_eq_true, if_false]
    cases h1 : w.ReadFileToString plat_sepolicy_cil_sha256 with
    | none => rfl
    | some c1 =>
      cases h2 : w.ReadFileToString precompiled_sepolicy_plat_sha256 with
      | none => rfl
      | some c2 =>
        dsimp only
        rw [if_pos]
        rcases hbad with h | h | ⟨d1, d2, e1, e2, h⟩
        · rw [h1] at h; cases h
        · rw [h2] at h; cases h
        · rw [h1] at e1; rw [h2] at e2
          cases e1; cases e2
          rcases h with h | h | h
          · exact Or.inl h
          · by_cases he : first_line c1 = first_line c2
            · exact Or.inl (he.trans h)
            · exact Or.inr he
          · exact Or.inr h

theorem load_split_precompiled (w : PolicyWorld)
    (hacc : w.access_r precompiled_sepolicy = true)
    (hopen : w.open_rdonly precompiled_sepolicy = true)
    (hsha : ∃ c1 c2 : CStr, w.ReadFileToString plat_sepolicy_cil_sha256 = some c1 ∧
      w.ReadFileToString precompiled_sepolicy_plat_sha256 = some c2 ∧
      first_line c1 = first_line c2 ∧ first_line c1 ≠ []) :
    (selinux_load_split_policy w).2 = [.load_policy_from_fd precompiled_sepolicy] ∧
    ((selinux_load_split_policy w).1 = true
      ↔ 0 ≤ w.selinux_android_load_policy_from_fd precompiled_sepolicy) := by
  unfold selinux_load_split_policy
  rw [find_precompiled_match w hacc hsha]
  simp only [hopen, if_true]
  by_cases hl : w.selinux_android_load_policy_from_fd precompiled_sepolicy < 0
  · simp only [hl, if_true, Bool.false_eq_true, false_iff, true_and]
    omega
  · simp only [hl, if_false, true_iff, true_and]
    omega

theorem load_split_compile (w : PolicyWorld)
    (h : (selinux_find_precompiled_split_policy w).1 = false) :
    selinux_load_split_policy w = selinux_load_split_policy_compile w := by
  unfold selinux_load_split_policy
  split
  · rename_i f hf
    rw [hf] at h
    cases h
  · rfl

theorem compile_calls (w : PolicyWorld) :
    (selinux_load_split_policy_compile w).2.head? = some .security_policyvers ∧
    PolicyCall.load_policy ∉ (selinux_load_split_policy_compile w).2 ∧
    (∀ f : CStr, PolicyCall.load_policy_from_fd f ∈ (selinux_load_split_policy_compile w).2 →
      w.mkostemp "/dev/sepolicy.XXXXXX".toList = some f) := by
  unfold selinux_load_split_policy_compile
  dsimp only
  split_ifs with h1
  · simp
  · cases hm : w.mkostemp "/dev/sepolicy.XXXXXX".toList with
    | none => simp
    | some f =>
      dsimp only
      split_ifs <;> simp

/-- C9: when the platform CIL `/system/etc/selinux/plat_sepolicy.cil` is present
(`access(plat_policy_cil_file, R_OK)` succeeds), the precompiled policy is
readable and both sha256 first lines are equal and non-empty, the only call made
is the load of the precompiled file; when the platform CIL is present and the
sha lines mismatch, or one is empty or unreadable, the policy is compiled from
CIL (the calls start with the policy-version query, and the only file loaded is
the compiled one); when the platform CIL is not present, the monolithic policy
is loaded and nothing else is called. -/
theorem selinux_load_policy_selection (w : PolicyWorld) :
    (w.access_r plat_policy_cil_file = true →
      w.access_r precompiled_sepolicy = true →
      w.open_rdonly precompiled_sepolicy = true →
      (∃ c1 c2 : CStr, w.ReadFileToString plat_sepolicy_cil_sha256 = some c1 ∧
        w.ReadFileToString precompiled_sepolicy_plat_sha256 = some c2 ∧
        first_line c1 = first_line c2 ∧ first_line c1 ≠ []) →
      (selinux_load_policy w).2 = [.load_policy_from_fd precompiled_sepolicy] ∧
      ((selinux_load_policy w).1 = true
        ↔ 0 ≤ w.selinux_android_load_policy_from_fd precompiled_sepolicy)) ∧
    (w.access_r plat_policy_cil_file = true →
      (w.ReadFileToString plat_sepolicy_cil_sha256 = none ∨
        w.ReadFileToString precompiled_sepolicy_plat_sha256 = none ∨
        ∃ c1 c2 : CStr, w.ReadFileToString plat_sepolicy_cil_sha256 = some c1 ∧
          w.ReadFileToString precompiled_sepolicy_plat_sha256 = some c2 ∧
          (first_line c1 = [] ∨ first_line c2 = [] ∨ first_line c1 ≠ first_line c2)) →
      selinux_load_policy w = selinux_load_split_policy_compile w ∧
      (selinux_load_policy w).2.head? = some .security_policyvers ∧
      PolicyCall.load_policy ∉ (selinux_load_policy w).2 ∧
      (∀ f : CStr, PolicyCall.load_policy_from_fd f ∈ (selinux_load_policy w).2 →
        w.mkostemp "/dev/sepolicy.XXXXXX".toList = some f)) ∧
    (w.access_r plat_policy_cil_file = false →
      selinux_load_policy w = selinux_load_monolithic_policy w ∧
      (selinux_load_policy w).2 = [.load_policy] ∧
      ((selinux_load_policy w).1 = true ↔ 0 ≤ w.selinux_android_load_policy)) := by
  refine ⟨?_, ?_, ?_⟩
  · intro hcil hacc hopen hsha
    unfold selinux_load_policy selinux_is_split_policy_device
    rw [if_pos hcil]
    exact load_split_precompiled w hacc hopen hsha
  · intro hcil hbad
    have h : selinux_load_policy w = selinux_load_split_policy_compile w := by
      unfold selinux_load_policy selinux_is_split_policy_device
      rw [if_pos hcil]
      exact load_split_compile w (find_precompiled_mismatch w hbad)
    rw [h]
    exact ⟨rfl, compile_calls w⟩
  · intro hcil
    have h : selinux_load_policy w = selinux_load_monolithic_policy w := by
      unfold selinux_load_policy selinux_is_split_policy_device
      rw [if_neg (by simp [hcil])]
    rw [h]
    refine ⟨rfl, ?_⟩
    unfold selinux_load_monolithic_policy
    split_ifs with hl
    · refine ⟨rfl, ?_⟩
      simp only [Bool.false_eq_true, false_iff]
      omega
    · refine ⟨rfl, ?_⟩
      simp only [true_iff]
      omega

/-- C9, witness: a system with the platform CIL, a readable precompiled policy and
the digest line `abc` in both sha256 files. -/
theorem selinux_load_policy_selection_witness :
    (selinux_load_policy world_with_cil).2 = [.load_policy_from_fd precompiled_sepolicy] :=
  ((selinux_load_policy_selection world_with_cil).1 (by decide) (by decide) (by decide)
    ⟨"abc\n".toList, "abc\n".toList, by decide, by decide, by decide, by decide⟩).1

/-- C10, counterexample: the precompiled policy is readable and both sha256 first
lines are `abc`, but `/system/etc/selinux/plat_sepolicy.cil` does not exist; the
only call made is the load of the monolithic policy, and the precompiled file is
not loaded. -/
theorem selinux_load_policy_skips_precompiled :
    world_without_cil.access_r precompiled_sepolicy = true ∧
    world_without_cil.open_rdonly precompiled_sepolicy = true ∧
    (world_without_cil.ReadFileToString plat_sepolicy_cil_sha256).map first_line
      = some "abc".toList ∧
    (world_without_cil.ReadFileToString precompiled_sepolicy_plat_sha256).map first_line
      = some "abc".toList ∧
    selinux_load_policy world_without_cil = (true, [.load_policy]) := by
  decide

/-- C10, as amended: the presence of `/system/etc/selinux/plat_sepolicy.cil` is
tested first.  Whenever `/vendor/etc/selinux/precompiled_sepolicy` is readable
and the first lines of the two sha256 files are equal and non-empty,
`selinux_load_policy` loads the precompiled file if the platform CIL exists, and
loads the monolithic policy, without a load of the precompiled file, if it does
not. -/
theorem selinux_load_policy_gate (w : PolicyWorld)
    (hacc : w.access_r precompiled_sepolicy = true)
    (hopen : w.open_rdonly precompiled_sepolicy = true)
    (hsha : ∃ c1 c2 : CStr, w.ReadFileToString plat_sepolicy_cil_sha256 = some c1 ∧
      w.ReadFileToString precompiled_sepolicy_plat_sha256 = some c2 ∧
      first_line c1 = first_line c2 ∧ first_line c1 ≠ []) :
    (w.access_r plat_policy_cil_file = true →
      (selinux_load_policy w).2 = [.load_policy_from_fd precompiled_sepolicy]) ∧
    (w.access_r plat_policy_cil_file = false →
      (selinux_load_policy w).2 = [.load_policy]) := by
  constructor
  · intro hcil
    unfold selinux_load_policy selinux_is_split_policy_device
    rw [if_pos hcil]
    exact (load_split_precompiled w hacc hopen hsha).1
  · intro hcil
    unfold selinux_load_policy selinux_is_split_policy_device
    rw [if_neg (by simp [hcil])]
    unfold selinux_load_monolithic_policy
    split_ifs <;> rfl

/-- C10, witness: the system of the counterexample, without the platform CIL. -/
theorem selinux_load_policy_gate_witness :
    (selinux_load_policy world_without_cil).2 = [.load_policy] :=
  (selinux_load_policy_gate world_without_cil (by decide) (by decide)
    ⟨"abc\n".toList, "abc\n".toList, by decide, by decide, by decide, by decide⟩).2 (by decide)

/-- The second case of C9 on a concrete system: with the digest lines `abc` and
`abd` the policy is compiled from CIL and the compiled file is loaded. -/
theorem selinux_load_policy_stale_example :
    selinux_load_policy world_with_stale_precompiled
      = (true, [.security_policyvers, .mkostemp "/dev/sepolicy.XXXXXX".toList,
          .fork_execve (compile_args 30 "/dev/sepolicy.a1b2c3".toList),
          .unlink "/dev/sepolicy.a1b2c3".toList,
          .load_policy_from_fd "/dev/sepolicy.a1b2c3".toList]) := by
  decide

/-! ## The claims on security hardening -/

theorem to_int_of_range (x : Int) (h1 : INT_MIN ≤ x) (h2 : x ≤ INT_MAX) : to_int x = x := by
  unfold INT_MIN at h1
  unfold INT_MAX at h2
  unfold to_int
  omega

theorem to_int_ge (x : Int) : INT_MIN ≤ to_int x := by
  unfold INT_MIN to_int
  omega

theorem descending_empty (hi lo : Int) (h : hi < lo) : descending hi lo = [] := by
  unfold descending
  have h0 : (hi - lo + 1).toNat = 0 := by omega
  rw [h0]
  rfl

theorem descending_cons (hi lo : Int) (h : lo ≤ hi) :
    descending hi lo = hi :: descending (hi - 1) lo := by
  unfold descending
  have h0 : (hi - lo + 1).toNat = (hi - 1 - lo + 1).toNat + 1 := by omega
  rw [h0, List.range_succ_eq_map, List.map_cons, List.map_map]
  simp only [Nat.cast_zero, sub_zero, List.cons.injEq, true_and]
  apply List.map_congr_left
  intro i _
  simp only [Function.comp_apply, Nat.cast_succ]
  omega

/-- The loop, entered with the stream in good state and `current` a value of type
`int`, for a file whose read-backs are tokens and a lower bound above `INT_MIN`:
it ends, either at the greatest round-tripping value of `min .. current` or,
when there is none, after the write of `min`. -/
theorem option_value_loop_total (f : TunableFile) (min : Int)
    (hout : f.open_out = true) (htok : ∀ v, f.read_back v ≠ []) (hmin : INT_MIN < min) :
    ∀ (fuel : Nat) (current : Int) (writes : List Int),
      current ≤ INT_MAX → (current - min + 1).toNat < fuel →
      (∃ v, min ≤ v ∧ v ≤ current ∧ f.read_back v = to_string v ∧
          (∀ u, v < u → u ≤ current → f.read_back u ≠ to_string u) ∧
          option_value_loop f min fuel current false writes
            = some { ret := true, writes := writes ++ descending current v }) ∨
      ((∀ v, min ≤ v → v ≤ current → f.read_back v ≠ to_string v) ∧
        option_value_loop f min fuel current false writes
          = some { ret := false, writes := writes ++ descending current min }) := by
  intro fuel
  induction fuel with
  | zero => intro current writes _ h; omega
  | succ fuel ih =>
    intro current writes hmax hfuel
    unfold option_value_loop
    by_cases hc : current ≥ min
    · simp only [hc, if_true, hout, Bool.not_true, Bool.false_eq_true, if_false]
      by_cases hrt : to_string current = f.read_back current
      · left
        refine ⟨current, hc, le_refl _, hrt.symm, ?_, ?_⟩
        · intro u h1 h2; omega
        · rw [if_pos hrt, descending_cons current current (le_refl _),
            descending_empty (current - 1) current (by omega)]
      · rw [if_neg hrt]
        have hne : decide (f.read_back current = []) = false := by
          simp [htok current]
        have hdec : to_int (current - 1) = current - 1 :=
          to_int_of_range _ (by omega) (by omega)
        simp only [hne, Bool.or_false, hdec]
        rcases ih (current - 1) (writes ++ [current]) (by omega) (by omega) with
          ⟨v, h1, h2, h3, h4, h5⟩ | ⟨h1, h2⟩
        · left
          refine ⟨v, h1, by omega, h3, ?_, ?_⟩
          · intro u hu1 hu2
            by_cases hu : u = current
            · subst hu; exact fun e => hrt e.symm
            · exact h4 u hu1 (by omega)
          · rw [h5, descending_cons current v (by omega)]
            simp
        · right
          refine ⟨?_, ?_⟩
          · intro v hv1 hv2
            by_cases hv : v = current
            · subst hv; exact fun e => hrt e.symm
            · exact h1 v hv1 (by omega)
          · rw [h2, descending_cons current min hc]
            simp
    · right
      refine ⟨?_, ?_⟩
      · intro v h1 h2; omega
      · simp only [hc, if_false]
        rw [descending_empty current min (by omega), List.append_nil]

/-- With `min = INT_MIN` the test `current >= min` never fails, so the loop never
ends with the return value false. -/
theorem option_value_loop_int_min (f : TunableFile) (hout : f.open_out = true) :
    ∀ (fuel : Nat) (current : Int) (inf_fail : Bool) (writes ws : List Int),
      INT_MIN ≤ current →
      option_value_loop f INT_MIN fuel current inf_fail writes
        ≠ some { ret := false, writes := ws } := by
  intro fuel
  induction fuel with
  | zero => intro current inf_fail writes ws _; simp [option_value_loop]
  | succ fuel ih =>
    intro current inf_fail writes ws hc
    unfold option_value_loop
    simp only [ge_iff_le, hc, if_true, hout, Bool.not_true, Bool.false_eq_true, if_false]
    split_ifs <;> first | exact ih _ _ _ _ (to_int_ge _) | simp

/-- C11, counterexample: for the file that accepts only 2 and 3 and
`min = max = INT_MIN`, no value of `min .. max` round-trips, yet the call never
returns false: after the write of `INT_MIN` the 32-bit `current--` gives
`INT_MAX`, and `current >= min` holds for every `int`. -/
theorem set_highest_available_option_value_int_min :
    file_accepting_2_3.read_back INT_MIN ≠ to_string INT_MIN ∧
    to_int (INT_MIN - 1) = INT_MAX ∧
    ¬ ∃ (fuel : Nat) (ws : List Int),
      set_highest_available_option_value fuel file_accepting_2_3 INT_MIN INT_MIN
        = some { ret := false, writes := ws } := by
  refine ⟨by decide, by decide, ?_⟩
  rintro ⟨fuel, ws, h⟩
  unfold set_highest_available_option_value at h
  simp only [file_accepting_2_3, Bool.not_true, Bool.false_eq_true, if_false] at h
  exact option_value_loop_int_min _ rfl fuel INT_MIN false [] ws (le_refl _) h

/-- C11, as amended: modelling the tunable file as a map from a written value to
the token read back, for every path that opens for reading and writing and all
`int` values `min`, `max` with `min` above `INT_MIN`,
`set_highest_available_option_value(path, min, max)` tries `max`, `max - 1`, ...
in descending order, stops at and leaves written the greatest `v` in
`min .. max` whose read-back equals the decimal text of `v`, and returns true; it
returns false if and only if no `v` in `min .. max` round-trips (also when
`min > max`), after having tried every value down to `min`.  With the file that
accepts only 2 and 3, the call with `(min, max) = (2, 4)` writes 4, then 3, and
returns true. -/
theorem set_highest_available_option_value_greatest (f : TunableFile) (min max : Int)
    (fuel : Nat) (hin : f.open_in = true) (hout : f.open_out = true)
    (htok : ∀ v, f.read_back v ≠ []) (hmin : INT_MIN < min) (hmax : max ≤ INT_MAX)
    (hfuel : (max - min + 1).toNat < fuel) :
    (∀ v, min ≤ v → v ≤ max → f.read_back v = to_string v →
      (∀ u, v < u → u ≤ max → f.read_back u ≠ to_string u) →
      set_highest_available_option_value fuel f min max
        = some { ret := true, writes := descending max v }) ∧
    ((∀ v, min ≤ v → v ≤ max → f.read_back v ≠ to_string v) →
      set_highest_available_option_value fuel f min max
        = some { ret := false, writes := descending max min }) ∧
    ((∃ ws, set_highest_available_option_value fuel f min max
        = some { ret := false, writes := ws })
      ↔ ∀ v, min ≤ v → v ≤ max → f.read_back v ≠ to_string v) ∧
    set_highest_available_option_value 10 file_accepting_2_3 2 4
      = some { ret := true, writes := [4, 3] } := by
  have hrun : set_highest_available_option_value fuel f min max
      = option_value_loop f min fuel max false [] := by
    unfold set_highest_available_option_value
    simp [hin]
  have htotal := option_value_loop_total f min hout htok hmin fuel max [] hmax hfuel
  simp only [List.nil_append] at htotal
  rw [hrun]
  refine ⟨?_, ?_, ?_, by decide⟩
  · intro v hv1 hv2 hrt hgreatest
    rcases htotal with ⟨w, hw1, hw2, hw3, hw4, hw5⟩ | ⟨hnone, _⟩
    · have hvw : v = w := by
        by_contra hne
        rcases lt_or_gt_of_ne hne with hlt | hgt
        · exact hgreatest w hlt hw2 hw3
        · exact hw4 v hgt hv2 hrt
      rw [hw5, hvw]
    · exact absurd hrt (hnone v hv1 hv2)
  · intro hnone
    rcases htotal with ⟨w, hw1, hw2, hw3, _, _⟩ | ⟨_, h⟩
    · exact absurd hw3 (hnone w hw1 hw2)
    · exact h
  · constructor
    · rintro ⟨ws, hws⟩
      rcases htotal with ⟨w, _, _, _, _, hw5⟩ | ⟨hnone, _⟩
      · rw [hw5] at hws
        simp at hws
      · exact hnone
    · intro hnone
      rcases htotal with ⟨w, hw1, hw2, hw3, _, _⟩ | ⟨_, h⟩
      · exact absurd hw3 (hnone w hw1 hw2)
      · exact ⟨_, h⟩

/-- C11, witness: the file that accepts only 2 and 3, with `(min, max) = (2, 4)`;
the greatest round-tripping value is 3. -/
theorem set_highest_available_option_value_greatest_witness :
    set_highest_available_option_value 10 file_accepting_2_3 2 4
      = some { ret := true, writes := descending 4 3 } :=
  (set_highest_available_option_value_greatest file_accepting_2_3 2 4 10 rfl rfl
    (by
      intro v
      unfold file_accepting_2_3
      dsimp only
      split_ifs with h
      · rcases h with rfl | rfl <;> decide
      · decide)
    (by decide) (by decide) (by decide)).1 3 (by decide) (by decide) (by decide)
    (by
      intro u h1 h2
      have hu : u = 4 := by omega
      subst hu
      decide)

theorem androidboot_ne_nil (suffix : CStr) : "androidboot.".toList ++ suffix ≠ [] := by
  intro h
  have := congrArg List.length h
  simp at this

theorem androidboot_ne_qemu (suffix : CStr) :
    "androidboot.".toList ++ suffix ≠ "qemu".toList := by
  intro h
  have h1 := congrArg (List.take 1) h
  have h2 : ("androidboot.".toList ++ suffix).take 1 = ['a'] := rfl
  have h3 : "qemu".toList.take 1 = ['q'] := rfl
  rw [h2, h3] at h1
  exact absurd h1 (by decide)

theorem StartsWith_androidboot (suffix : CStr) :
    StartsWith ("androidboot.".toList ++ suffix) "androidboot.".toList = true := by
  unfold StartsWith
  rw [List.take_left]
  simp

theorem StartsWith_split (key start : CStr) (h : StartsWith key start = true) :
    key = start ++ key.drop start.length := by
  unfold StartsWith at h
  have h1 : key.take start.length = start := by simpa using h
  conv_lhs => rw [← List.take_append_drop start.length key, h1]

/-- C13: on the first pass (`for_emulator` false) `import_kernel_nv` sets the
property `ro.boot.<suffix>` to the value when the key is `androidboot.<suffix>`,
records the value in `qemu` (up to 31 characters) and sets no property when the
key is `qemu`, and changes nothing for any other key; on the emulator pass it
sets `ro.kernel.<key>` to the value for every non-empty key; an empty key is
skipped on both passes.  On the command line of scenario E1 the first pass sets
`ro.boot.hardware=foo` and `ro.boot.selinux=permissive` and records `qemu = 1`,
and the second pass, which that makes `process_kernel_cmdline` run, sets
`ro.kernel.<key>` for each of the four keys, `ro.kernel.bar=baz` among them. -/
theorem import_kernel_nv_passes :
    (∀ (suffix value : CStr) (s : ImportState),
      import_kernel_nv ("androidboot.".toList ++ suffix) value false s
        = { s with property_set_calls :=
              s.property_set_calls ++ [("ro.boot.".toList ++ suffix, value)] }) ∧
    (∀ (value : CStr) (s : ImportState),
      import_kernel_nv "qemu".toList value false s = { s with qemu := value.take 31 }) ∧
    (∀ (key value : CStr) (s : ImportState), key ≠ "qemu".toList →
      (∀ suffix : CStr, key ≠ "androidboot.".toList ++ suffix) →
      import_kernel_nv key value false s = s) ∧
    (∀ (key value : CStr) (s : ImportState), key ≠ [] →
      import_kernel_nv key value true s
        = { s with property_set_calls :=
              s.property_set_calls ++ [("ro.kernel.".toList ++ key, value)] }) ∧
    (∀ (value : CStr) (for_emulator : Bool) (s : ImportState),
      import_kernel_nv [] value for_emulator s = s) ∧
    import_kernel_cmdline example_cmdline false import_kernel_nv ImportState.initial
      = { qemu := "1".toList,
          property_set_calls :=
            [("ro.boot.hardware".toList, "foo".toList),
             ("ro.boot.selinux".toList, "permissive".toList)] } ∧
    process_kernel_cmdline example_cmdline ImportState.initial
      = { qemu := "1".toList,
          property_set_calls :=
            [("ro.boot.hardware".toList, "foo".toList),
             ("ro.boot.selinux".toList, "permissive".toList),
             ("ro.kernel.androidboot.hardware".toList, "foo".toList),
             ("ro.kernel.bar".toList, "baz".toList),
             ("ro.kernel.qemu".toList, "1".toList),
             ("ro.kernel.androidboot.selinux".toList, "permissive".toList)] } := by
  refine ⟨?_, ?_, ?_, ?_, ?_, by decide, by decide⟩
  · intro suffix value s
    unfold import_kernel_nv
    rw [if_neg (androidboot_ne_nil suffix), if_neg (by simp),
      if_neg (androidboot_ne_qemu suffix), if_pos (StartsWith_androidboot suffix)]
    have hdrop : ("androidboot.".toList ++ suffix).drop 12 = suffix :=
      List.drop_left' (by decide)
    rw [hdrop]
  · intro value s
    unfold import_kernel_nv
    rw [if_neg (by decide), if_neg (by simp), if_pos rfl]
    rfl
  · intro key value s hq hab
    unfold import_kernel_nv
    by_cases hk : key = []
    · rw [if_pos hk]
    · rw [if_neg hk, if_neg (by simp), if_neg hq, if_neg]
      intro hs
      exact hab _ (StartsWith_split key _ hs)
  · intro key value s hk
    unfold import_kernel_nv
    rw [if_neg hk, if_pos rfl]
  · intro value for_emulator s
    unfold import_kernel_nv
    rw [if_pos rfl]

/-- C13, witness: the key `bar` on the first pass and on the emulator pass. -/
theorem import_kernel_nv_passes_witness :
    import_kernel_nv "bar".toList "baz".toList false ImportState.initial = ImportState.initial ∧
    import_kernel_nv "bar".toList "baz".toList true ImportState.initial
      = { ImportState.initial with
          property_set_calls := [("ro.kernel.bar".toList, "baz".toList)] } :=
  ⟨import_kernel_nv_passes.2.2.1 "bar".toList "baz".toList ImportState.initial (by decide)
      (by
        intro suffix h
        have h1 := congrArg (List.take 1) h
        have h2 : ("androidboot.".toList ++ suffix).take 1 = ['a'] := rfl
        rw [h2] at h1
        exact absurd h1 (by decide)),
    import_kernel_nv_passes.2.2.2.1 "bar".toList "baz".toList ImportState.initial (by decide)⟩

/-- C14, counterexample: on a property store without `ro.boot.serialno` the alias
`ro.serialno` is set to the empty string, which is neither `unknown` nor `0`. -/
theorem export_kernel_boot_props_empty_serialno :
    ("ro.serialno".toList, ([] : CStr)) ∈ export_kernel_boot_props (fun _ => []) ∧
    ([] : CStr) ≠ "unknown".toList ∧ ([] : CStr) ≠ "0".toList := by
  decide

/-- C14, as amended: for every property store, `export_kernel_boot_props` sets
each of the six aliases `ro.serialno`, `ro.bootmode`, `ro.baseband`,
`ro.bootloader`, `ro.hardware` and `ro.revision`, in this order, to the value of
its `ro.boot.*` source when that source is non-empty, and otherwise to its
per-property default: the empty string for `ro.serialno`, `unknown` for
`ro.bootmode`, `ro.baseband`, `ro.bootloader` and `ro.hardware`, and `0` for
`ro.revision`. -/
theorem export_kernel_boot_props_calls (property_get : CStr → CStr) :
    export_kernel_boot_props property_get
      = [ ("ro.serialno".toList,
            if property_get "ro.boot.serialno".toList ≠ []
            then property_get "ro.boot.serialno".toList else []),
          ("ro.bootmode".toList,
            if property_get "ro.boot.mode".toList ≠ []
            then property_get "ro.boot.mode".toList else "unknown".toList),
          ("ro.baseband".toList,
            if property_get "ro.boot.baseband".toList ≠ []
            then property_get "ro.boot.baseband".toList else "unknown".toList),
          ("ro.bootloader".toList,
            if property_get "ro.boot.bootloader".toList ≠ []
            then property_get "ro.boot.bootloader".toList else "unknown".toList),
          ("ro.hardware".toList,
            if property_get "ro.boot.hardware".toList ≠ []
            then property_get "ro.boot.hardware".toList else "unknown".toList),
          ("ro.revision".toList,
            if property_get "ro.boot.revision".toList ≠ []
            then property_get "ro.boot.revision".toList else "0".toList) ] := by
  rfl

/-- C15: when `ro.oem_unlock_supported` is `1`, `export_oem_lock_status` sets
`ro.boot.flash.locked` to `0` if `ro.boot.verifiedbootstate` is `orange` and to
`1` for every other non-empty state; when `ro.oem_unlock_supported` is not `1`
or the verified-boot state is empty, it sets no property. -/
theorem export_oem_lock_status_calls (property_get : CStr → CStr) :
    (property_get "ro.oem_unlock_supported".toList = "1".toList →
      property_get "ro.boot.verifiedbootstate".toList = "orange".toList →
      export_oem_lock_status property_get
        = [("ro.boot.flash.locked".toList, "0".toList)]) ∧
    (property_get "ro.oem_unlock_supported".toList = "1".toList →
      property_get "ro.boot.verifiedbootstate".toList ≠ [] →
      property_get "ro.boot.verifiedbootstate".toList ≠ "orange".toList →
      export_oem_lock_status property_get
        = [("ro.boot.flash.locked".toList, "1".toList)]) ∧
    (property_get "ro.oem_unlock_supported".toList ≠ "1".toList ∨
        property_get "ro.boot.verifiedbootstate".toList = [] →
      export_oem_lock_status property_get = []) := by
  refine ⟨?_, ?_, ?_⟩
  · intro h1 h2
    unfold export_oem_lock_status
    rw [if_neg (fun hn => hn h1)]
    dsimp only
    rw [if_pos (by rw [h2]; decide), if_pos h2]
  · intro h1 h2 h3
    unfold export_oem_lock_status
    rw [if_neg (fun hn => hn h1)]
    dsimp only
    rw [if_pos h2, if_neg h3]
  · intro h
    unfold export_oem_lock_status
    by_cases h1 : property_get "ro.oem_unlock_supported".toList = "1".toList
    · rcases h with h | h
      · exact absurd h1 h
      · rw [if_neg (fun hn => hn h1)]
        dsimp only
        rw [if_neg (fun hn => hn h)]
    · rw [if_pos h1]

/-- C15, witness: a store with `ro.oem_unlock_supported=1` and the verified-boot
state `green`. -/
theorem export_oem_lock_status_calls_witness :
    export_oem_lock_status
        (fun name => if name = "ro.oem_unlock_supported".toList then "1".toList
          else if name = "ro.boot.verifiedbootstate".toList then "green".toList else [])
      = [("ro.boot.flash.locked".toList, "1".toList)] :=
  (export_oem_lock_status_calls
    (fun name => if name = "ro.oem_unlock_supported".toList then "1".toList
      else if name = "ro.boot.verifiedbootstate".toList then "green".toList else [])).2.1
    (by decide) (by decide) (by decide)

/-- C16: `handle_control_message(msg, name)` calls no service member when no
service called `name` exists; when one exists, the message `start`, `stop` or
`restart` makes exactly one call, of `Start`, `Stop` or `Restart`, on that
service, and every other message makes no call. -/
theorem handle_control_message_calls {Service : Type}
    (FindServiceByName : CStr → Option Service) (msg name : CStr) :
    (FindServiceByName name = none →
      handle_control_message FindServiceByName msg name = []) ∧
    (∀ svc : Service, FindServiceByName name = some svc →
      (msg = "start".toList →
        handle_control_message FindServiceByName msg name = [(svc, .Start)]) ∧
      (msg = "stop".toList →
        handle_control_message FindServiceByName msg name = [(svc, .Stop)]) ∧
      (msg = "restart".toList →
        handle_control_message FindServiceByName msg name = [(svc, .Restart)]) ∧
      (msg ≠ "start".toList → msg ≠ "stop".toList → msg ≠ "restart".toList →
        handle_control_message FindServiceByName msg name = [])) := by
  constructor
  · intro h
    unfold handle_control_message
    rw [h]
  · intro svc h
    unfold handle_control_message
    rw [h]
    dsimp only
    refine ⟨?_, ?_, ?_, ?_⟩
    · intro hm
      rw [if_pos hm]
    · intro hm
      rw [if_neg (by rw [hm]; decide), if_pos hm]
    · intro hm
      rw [if_neg (by rw [hm]; decide), if_neg (by rw [hm]; decide), if_pos hm]
    · intro h1 h2 h3
      rw [if_neg h1, if_neg h2, if_neg h3]

/-- C16, witness: the message `start` for the one existing service `foo`. -/
theorem handle_control_message_calls_witness :
    handle_control_message
        (fun name => if name = "foo".toList then some (7 : Nat) else none)
        "start".toList "foo".toList
      = [(7, .Start)] :=
  ((handle_control_message_calls
    (fun name => if name = "foo".toList then some (7 : Nat) else none)
    "start".toList "foo".toList).2 7 (by decide)).1 rfl

/-! ## The claims on coldboot and the order of early mount -/

theorem strncmp_eq_zero (a b : CStr) (n : Nat) :
    strncmp a b n = 0 ↔ a.take n = b.take n := by
  unfold strncmp
  split <;> simp [*]

theorem strncmp_firmware (s : CStr) :
    strncmp s "firmware".toList 8 = 0 ↔ s.take 8 = "firmware".toList :=
  strncmp_eq_zero s "firmware".toList 8

theorem strncmp_platform (s : CStr) :
    strncmp s "platform".toList 8 = 0 ↔ s.take 8 = "platform".toList :=
  strncmp_eq_zero s "platform".toList 8

theorem strncmp_block (s : CStr) :
    strncmp s "block".toList 5 = 0 ↔ s.take 5 = "block".toList :=
  strncmp_eq_zero s "block".toList 5

theorem take_five_of_eight (s : CStr) : (s.take 8).take 5 = s.take 5 := by
  rw [List.take_take]
  rfl

theorem block_not_firmware (s : CStr) (h : s.take 5 = "block".toList) :
    s.take 8 ≠ "firmware".toList := by
  intro h8
  have h5 := take_five_of_eight s
  rw [h8, h] at h5
  exact absurd h5 (by decide)

theorem block_not_platform (s : CStr) (h : s.take 5 = "block".toList) :
    s.take 8 ≠ "platform".toList := by
  intro h8
  have h5 := take_five_of_eight s
  rw [h8, h] at h5
  exact absurd h5 (by decide)

theorem visitor_block (S : Finset CStr) (ev : uevent) (h : ev.subsystem.take 5 = "block".toList) :
    early_device_init_visitor S ev
      = match ev.partition_name with
        | some name =>
          if name ∈ S then
            if S.erase name = ∅ then (.COLDBOOT_STOP, S.erase name)
            else (.COLDBOOT_CREATE, S.erase name)
          else (.COLDBOOT_CONTINUE, S)
        | none => (.COLDBOOT_CONTINUE, S) := by
  unfold early_device_init_visitor
  have h1 : ¬ strncmp ev.subsystem "firmware".toList 8 = 0 := by
    rw [strncmp_eq_zero]
    exact block_not_firmware _ h
  have h2 : ¬ strncmp ev.subsystem "platform".toList 8 = 0 := by
    rw [strncmp_eq_zero]
    exact block_not_platform _ h
  have h3 : ¬ strncmp ev.subsystem "block".toList 5 ≠ 0 := by
    rw [not_not, strncmp_eq_zero]
    exact h
  rw [if_neg h1, if_neg h2, if_neg h3]

/-- C17, counterexample: an event of the subsystem `platformx`, which is neither
`firmware` nor `platform` nor `block`, gets Create and not Continue; and an
event of the subsystem `blockx` for the partition `sda1` removes `sda1` from the
set and gets Create, where the claim has Continue and the set unchanged. -/
theorem early_device_init_visitor_longer_names :
    "platformx".toList ≠ "firmware".toList ∧ "platformx".toList ≠ "platform".toList ∧
    "platformx".toList ≠ "block".toList ∧
    (early_device_init_visitor {"sda1".toList}
      { subsystem := "platformx".toList, partition_name := none, device_name := none }).1
      = .COLDBOOT_CREATE ∧
    "blockx".toList ≠ "block".toList ∧
    (early_device_init_visitor {"sda1".toList, "sda2".toList}
      { subsystem := "blockx".toList, partition_name := some "sda1".toList,
        device_name := none }).1 = .COLDBOOT_CREATE ∧
    (early_device_init_visitor {"sda1".toList, "sda2".toList}
      { subsystem := "blockx".toList, partition_name := some "sda1".toList,
        device_name := none }).2 = {"sda2".toList} := by
  decide

/-- C17, as amended: for every uevent and current resolve-set `S`, the visitor
returns Continue when the subsystem name begins with `firmware`, Create when it
begins with `platform`, and Continue when it begins with none of `firmware`,
`platform` and `block`; for an event whose subsystem name begins with `block`
and whose partition name is in `S` it removes that name from `S` and returns
Create while `S` is still non-empty and Stop once `S` is empty; for every
other event whose subsystem name begins with `block` it returns Continue and
leaves `S` unchanged.  The visitor never adds a name to `S`, and
`early_device_init` starts no coldboot pass when `S` is empty. -/
theorem early_device_init_visitor_cases (S : Finset CStr) (ev : uevent) :
    (ev.subsystem.take 8 = "firmware".toList →
      early_device_init_visitor S ev = (.COLDBOOT_CONTINUE, S)) ∧
    (ev.subsystem.take 8 = "platform".toList →
      early_device_init_visitor S ev = (.COLDBOOT_CREATE, S)) ∧
    (ev.subsystem.take 8 ≠ "firmware".toList → ev.subsystem.take 8 ≠ "platform".toList →
      ev.subsystem.take 5 ≠ "block".toList →
      early_device_init_visitor S ev = (.COLDBOOT_CONTINUE, S)) ∧
    (ev.subsystem.take 5 = "block".toList →
      ∀ name : CStr, ev.partition_name = some name → name ∈ S →
        (S.erase name ≠ ∅ →
          early_device_init_visitor S ev = (.COLDBOOT_CREATE, S.erase name)) ∧
        (S.erase name = ∅ →
          early_device_init_visitor S ev = (.COLDBOOT_STOP, S.erase name))) ∧
    (ev.subsystem.take 5 = "block".toList →
      (∀ name : CStr, ev.partition_name = some name → name ∉ S) →
      early_device_init_visitor S ev = (.COLDBOOT_CONTINUE, S)) ∧
    (early_device_init_visitor S ev).2 ⊆ S ∧
    (∀ events : List uevent, early_device_init events ∅ = (none, ∅)) := by
  have hfirm : ev.subsystem.take 8 = "firmware".toList →
      early_device_init_visitor S ev = (.COLDBOOT_CONTINUE, S) := by
    intro h
    unfold early_device_init_visitor
    rw [if_pos ((strncmp_firmware _).2 h)]
  have hplat : ev.subsystem.take 8 = "platform".toList →
      early_device_init_visitor S ev = (.COLDBOOT_CREATE, S) := by
    intro h
    unfold early_device_init_visitor
    have h1 : ¬ strncmp ev.subsystem "firmware".toList 8 = 0 := by
      rw [strncmp_firmware, h]
      decide
    rw [if_neg h1, if_pos ((strncmp_platform _).2 h)]
  have hother : ev.subsystem.take 8 ≠ "firmware".toList →
      ev.subsystem.take 8 ≠ "platform".toList → ev.subsystem.take 5 ≠ "block".toList →
      early_device_init_visitor S ev = (.COLDBOOT_CONTINUE, S) := by
    intro h1 h2 h3
    unfold early_device_init_visitor
    rw [if_neg (fun h => h1 ((strncmp_firmware _).1 h)),
      if_neg (fun h => h2 ((strncmp_platform _).1 h)),
      if_pos (fun h => h3 ((strncmp_block _).1 h))]
  refine ⟨hfirm, hplat, hother, ?_, ?_, ?_, ?_⟩
  · intro hb name hn hmem
    rw [visitor_block S ev hb, hn]
    dsimp only
    rw [if_pos hmem]
    exact ⟨fun h => by rw [if_neg h], fun h => by rw [if_pos h]⟩
  · intro hb hno
    rw [visitor_block S ev hb]
    cases hn : ev.partition_name with
    | none => rfl
    | some name =>
      dsimp only
      rw [if_neg (hno name hn)]
  · by_cases hb : ev.subsystem.take 5 = "block".toList
    · rw [visitor_block S ev hb]
      cases ev.partition_name with
      | none => exact Finset.Subset.refl _
      | some name =>
        dsimp only
        split_ifs
        · exact Finset.erase_subset _ _
        · exact Finset.erase_subset _ _
        · exact Finset.Subset.refl _
    · by_cases h1 : ev.subsystem.take 8 = "firmware".toList
      · rw [hfirm h1]
      · by_cases h2 : ev.subsystem.take 8 = "platform".toList
        · rw [hplat h2]
        · rw [hother h1 h2 hb]
  · intro events
    unfold early_device_init
    rw [if_pos rfl]

/-- C17, witness: a block event for `sda1` while `sda1` and `sda2` are still to
be found. -/
theorem early_device_init_visitor_cases_witness :
    early_device_init_visitor {"sda1".toList, "sda2".toList} (block_event "sda1".toList)
      = (.COLDBOOT_CREATE, ({"sda1".toList, "sda2".toList} : Finset CStr).erase "sda1".toList) :=
  ((early_device_init_visitor_cases {"sda1".toList, "sda2".toList}
    (block_event "sda1".toList)).2.2.2.1 (by decide) "sda1".toList rfl (by decide)).1
    (by decide)

theorem mounted_append (a b : List EarlyMountStep) :
    mounted (a ++ b) = mounted a ++ mounted b := by
  induction a with
  | nil => rfl
  | cons x a ih => cases x <;> simp [mounted, ih]

theorem verity_set_up_append (a b : List EarlyMountStep) :
    verity_set_up (a ++ b) = verity_set_up a ++ verity_set_up b := by
  induction a with
  | nil => rfl
  | cons x a ih => cases x <;> simp [verity_set_up, ih]

/-- One record: the calls mount that record or nothing, and they mount it when
the call succeeds. -/
theorem early_mount_one_steps (w : EarlyMountWorld) (row : fstab_rec) :
    (mounted (early_mount_one w row).2 = [] ∨
      mounted (early_mount_one w row).2 = [row.mount_point]) ∧
    ((early_mount_one w row).1 = true →
      mounted (early_mount_one w row).2 = [row.mount_point]) ∧
    (verity_set_up (early_mount_one w row).2 = [] ∨
      verity_set_up (early_mount_one w row).2 = [row.mount_point]) := by
  unfold early_mount_one
  by_cases hv : w.fm.fs_mgr_is_verified row = true
  · rw [if_pos hv]
    cases w.fs_mgr_setup_verity row with
    | none => simp [mounted, verity_set_up]
    | some dm =>
      dsimp only
      split_ifs <;> simp [mounted, verity_set_up]
  · rw [if_neg hv]
    split_ifs <;> simp [mounted, verity_set_up]

theorem early_mount_rows_steps (w : EarlyMountWorld) (rows : List fstab_rec) :
    mounted (early_mount_rows w rows).2 <+: rows.map (fun r => r.mount_point) ∧
    ((early_mount_rows w rows).1 = true →
      mounted (early_mount_rows w rows).2 = rows.map (fun r => r.mount_point)) ∧
    (verity_set_up (early_mount_rows w rows).2).Sublist (rows.map (fun r => r.mount_point)) := by
  induction rows with
  | nil => simp [early_mount_rows, mounted, verity_set_up]
  | cons row rows ih =>
    obtain ⟨h1, h2, h3⟩ := early_mount_one_steps w row
    obtain ⟨i1, i2, i3⟩ := ih
    unfold early_mount_rows
    cases hone : early_mount_one w row with
    | mk ok steps =>
      rw [hone] at h1 h2 h3
      dsimp only at h1 h2 h3
      cases ok with
      | false =>
        dsimp only
        refine ⟨?_, ?_, ?_⟩
        · rcases h1 with h | h <;> rw [h]
          · exact List.nil_prefix
          · simp only [List.map_cons]
            exact List.prefix_iff_eq_append.2 (by simp)
        · intro h
          cases h
        · rcases h3 with h | h <;> rw [h]
          · exact List.nil_sublist _
          · simp
      | true =>
        have hm := h2 rfl
        cases hrest : early_mount_rows w rows with
        | mk ok2 steps2 =>
          rw [hrest] at i1 i2 i3
          dsimp only at i1 i2 i3 ⊢
          rw [mounted_append, verity_set_up_append, hm]
          refine ⟨?_, ?_, ?_⟩
          · simp only [List.map_cons, List.singleton_append]
            exact (List.prefix_cons_inj _).2 i1
          · intro h
            rw [i2 h]
            rfl
          · simp only [List.map_cons]
            rcases h3 with h | h <;> rw [h]
            · exact (List.Sublist.cons _ i3)
            · exact (List.Sublist.cons₂ _ i3)

theorem early_fstab_recs_fixed_order (tab : List fstab_rec) :
    ((early_fstab_recs tab).map (fun r => r.mount_point)).Sublist
      ["/odm".toList, "/system".toList, "/vendor".toList] := by
  have key : ∀ l : List CStr,
      ((l.filterMap (fun mount_point => fs_mgr_get_entry_for_mount_point tab mount_point)).map
        (fun r => r.mount_point)).Sublist l := by
    intro l
    induction l with
    | nil => simp
    | cons p l ih =>
      rw [List.filterMap_cons]
      cases hf : fs_mgr_get_entry_for_mount_point tab p with
      | none => exact List.Sublist.cons _ ih
      | some r =>
        have hp : r.mount_point = p := by
          unfold fs_mgr_get_entry_for_mount_point at hf
          simpa using List.find?_some hf
        simp only [List.map_cons, hp]
        exact List.Sublist.cons₂ _ ih
  exact key _

/-- C18, counterexample: the fstab reader returns `/vendor` before `/odm`, and
`early_mount` mounts `/odm` before `/vendor`. -/
theorem early_mount_not_in_reader_order :
    world_vendor_first.fs_mgr_read_fstab_dt.map (fun tab => tab.map (fun r => r.mount_point))
      = some ["/vendor".toList, "/odm".toList] ∧
    (early_mount world_vendor_first).map (fun r => (r.1, mounted r.2))
      = some (true, ["/odm".toList, "/vendor".toList]) := by
  decide

/-- C18, as amended: `early_mount` processes (sets up verity for, and mounts) the
selected rows in the fixed order `/odm`, `/system`, `/vendor` of its own list of
mount points, whatever the order in which the fstab reader returned them: for
every device-tree fstab the mount points of the selected rows form a sublist of
`/odm`, `/system`, `/vendor`, the rows mounted are an initial part of the
selected rows in that order (all of them when the mounting phase is reached and
`early_mount` succeeds), and the rows for which verity is set up follow the
same order. -/
theorem early_mount_row_order (w : EarlyMountWorld) (tab : List fstab_rec)
    (success : Bool) (steps : List EarlyMountStep)
    (htab : w.fs_mgr_read_fstab_dt = some tab)
    (hrun : early_mount w = some (success, steps)) :
    ((early_fstab_recs tab).map (fun r => r.mount_point)).Sublist
      ["/odm".toList, "/system".toList, "/vendor".toList] ∧
    mounted steps <+: (early_fstab_recs tab).map (fun r => r.mount_point) ∧
    (verity_set_up steps).Sublist ((early_fstab_recs tab).map (fun r => r.mount_point)) ∧
    (success = true → steps ≠ [] →
      mounted steps = (early_fstab_recs tab).map (fun r => r.mount_point)) := by
  refine ⟨early_fstab_recs_fixed_order tab, ?_⟩
  have hnil : mounted ([] : List EarlyMountStep) <+:
        (early_fstab_recs tab).map (fun r => r.mount_point) ∧
      (verity_set_up ([] : List EarlyMountStep)).Sublist
        ((early_fstab_recs tab).map (fun r => r.mount_point)) ∧
      (success = true → ([] : List EarlyMountStep) ≠ [] →
        mounted ([] : List EarlyMountStep)
          = (early_fstab_recs tab).map (fun r => r.mount_point)) :=
    ⟨List.nil_prefix, List.nil_sublist _, fun _ h => absurd rfl h⟩
  unfold early_mount at hrun
  rw [htab] at hrun
  by_cases hrec : w.recovery_present = true
  · rw [if_pos hrec] at hrun
    cases hrun
    exact hnil
  · rw [if_neg hrec] at hrun
    cases hcompat : is_dt_fstab_compatible w.dt_fstab_compatible_file with
    | none => rw [hcompat] at hrun; cases hrun
    | some c =>
      rw [hcompat] at hrun
      cases c with
      | false => cases hrun; exact hnil
      | true =>
        dsimp only at hrun
        by_cases hempty : early_fstab_recs tab = []
        · rw [if_pos hempty] at hrun
          cases hrun
          exact hnil
        · rw [if_neg hempty] at hrun
          by_cases hparts : (get_early_partitions w.fm (early_fstab_recs tab)).ret = true
          swap
          · rw [if_pos (by simpa using hparts)] at hrun
            cases hrun
            exact hnil
          · rw [if_neg (by simp [hparts])] at hrun
            generalize early_device_init w.coldboot_events
                (get_early_partitions w.fm (early_fstab_recs tab)).out_partitions = dev at hrun
            obtain ⟨pass, names⟩ := dev
            dsimp only at hrun
            have hsteps0 : mounted (early_device_init_steps pass) = [] ∧
                verity_set_up (early_device_init_steps pass) = [] := by
              cases pass <;> exact ⟨rfl, rfl⟩
            by_cases hnames : names ≠ ∅
            · rw [if_pos hnames] at hrun
              cases hrun
              rw [mounted_append, verity_set_up_append, hsteps0.1, hsteps0.2]
              exact ⟨List.nil_prefix, List.nil_sublist _, by intro h; cases h⟩
            · rw [if_neg hnames] at hrun
              obtain ⟨r1, r2, r3⟩ := early_mount_rows_steps w (early_fstab_recs tab)
              generalize early_mount_rows w (early_fstab_recs tab) = rows at hrun r1 r2 r3
              obtain ⟨ok, steps2⟩ := rows
              dsimp only at hrun r1 r2 r3
              cases hrun
              have hpre : mounted (if (get_early_partitions w.fm
                    (early_fstab_recs tab)).out_need_verity = true then
                    early_device_init_steps pass ++
                    [EarlyMountStep.device_init
                      (some "/sys/devices/virtual/misc/device-mapper".toList)]
                  else early_device_init_steps pass) = [] ∧
                  verity_set_up (if (get_early_partitions w.fm
                    (early_fstab_recs tab)).out_need_verity = true then
                    early_device_init_steps pass ++
                    [EarlyMountStep.device_init
                      (some "/sys/devices/virtual/misc/device-mapper".toList)]
                  else early_device_init_steps pass) = [] := by
                split_ifs
                · rw [mounted_append, verity_set_up_append, hsteps0.1, hsteps0.2]
                  exact ⟨rfl, rfl⟩
                · exact hsteps0
              simp only [mounted_append, verity_set_up_append, hpre.1, hpre.2,
                List.nil_append]
              have hclose : mounted [EarlyMountStep.device_close] = [] ∧
                  verity_set_up [EarlyMountStep.device_close] = [] := ⟨rfl, rfl⟩
              rw [hclose.1, hclose.2, List.append_nil, List.append_nil]
              exact ⟨r1, r3, fun h _ => r2 h⟩

/-- C18, witness: the system whose fstab lists `/vendor` before `/odm`. -/
theorem early_mount_row_order_witness :
    mounted [EarlyMountStep.device_init none,
        .mount { blk_device := "/dev/block/sda3".toList, mount_point := "/odm".toList,
                 fs_mgr_flags := 0, verity_loc := none },
        .mount { blk_device := "/dev/block/sda1".toList, mount_point := "/vendor".toList,
                 fs_mgr_flags := 0, verity_loc := none },
        .device_close]
      <+: (early_fstab_recs
        [ { blk_device := "/dev/block/sda1".toList, mount_point := "/vendor".toList,
            fs_mgr_flags := 0, verity_loc := none },
          { blk_device := "/dev/block/sda3".toList, mount_point := "/odm".toList,
            fs_mgr_flags := 0, verity_loc := none } ]).map (fun r => r.mount_point) :=
  (early_mount_row_order world_vendor_first _ true _ rfl (by decide)).2.1

/-! ## The claims on the supervisor loop -/

/-- C19, the code at the failing inputs: with no command left and a restart due
in 2147484 seconds the timeout is 0, where the claim has 2147484000 ms, because
`2147484 * 1000` does not fit the 32-bit `int` that receives it; and with a
deadline 2147484 seconds in the past the `int` holds 2147483296, the test
`epoll_timeout_ms < 0` does not see a negative value, and the timeout is
2147483296 ms, where the claim, and the comment "wake up in time for that", have
0. -/
theorem epoll_timeout_ms_overflow :
    epoll_timeout_ms 1700000000 (1700000000 - 2147484) false = 0 ∧
    max 0 ((1700000000 : Int) - (1700000000 - 2147484)) * 1000 = 2147484000 ∧
    epoll_timeout_ms 1700000000 (1700000000 + 2147484) false = 2147483296 ∧
    max 0 ((1700000000 : Int) - (1700000000 + 2147484)) * 1000 = 0 := by
  decide

/-- What `epoll_timeout_ms` is on every input: 0 if the action manager still has
commands; otherwise, if a restart is pending (`process_needs_restart_at ≠ 0`),
what the 32-bit `int` keeps of `(process_needs_restart_at − now) * 1000`, or 0
if that is negative, which is `max(0, deadline − now)` in milliseconds whenever
the product fits a 32-bit `int`; otherwise -1.  This is the timeout with which
the iteration calls `epoll_wait`. -/
theorem epoll_timeout_ms_value (deadline now : Int) (more : Bool) :
    (more = true → epoll_timeout_ms deadline now more = 0) ∧
    (more = false → deadline ≠ 0 →
      epoll_timeout_ms deadline now more = max 0 (to_int ((deadline - now) * 1000))) ∧
    (more = false → deadline ≠ 0 →
      INT_MIN ≤ (deadline - now) * 1000 → (deadline - now) * 1000 ≤ INT_MAX →
      epoll_timeout_ms deadline now more = max 0 (deadline - now) * 1000) ∧
    (more = false → deadline = 0 → epoll_timeout_ms deadline now more = -1) ∧
    (∀ (it : Iteration) (s : MainState),
      (s.globals.waiting_for_exec.isSome || s.globals.waiting_for_prop.isSome) = true →
      LoopStep.epoll_wait
          (epoll_timeout_ms s.process_needs_restart_at it.time it.HasMoreCommands)
        ∈ (main_loop_iteration it s).2) ∧
    (∀ (it : Iteration) (s : MainState),
      (s.globals.waiting_for_exec.isSome || s.globals.waiting_for_prop.isSome) = false →
      LoopStep.epoll_wait (epoll_timeout_ms it.restart_processes it.time it.HasMoreCommands)
        ∈ (main_loop_iteration it s).2) := by
  refine ⟨?_, ?_, ?_, ?_, ?_, ?_⟩
  · intro h
    unfold epoll_timeout_ms
    simp [h]
  · intro h hd
    unfold epoll_timeout_ms
    simp only [h, Bool.false_eq_true, if_false, ne_eq, hd, not_false_eq_true, if_true]
    split_ifs with ht
    · rw [max_eq_left (le_of_lt ht)]
    · rw [max_eq_right (not_lt.1 ht)]
  · intro h hd h1 h2
    unfold epoll_timeout_ms
    simp only [h, Bool.false_eq_true, if_false, ne_eq, hd, not_false_eq_true, if_true]
    rw [to_int_of_range _ h1 h2]
    split_ifs with ht
    · have : deadline - now < 0 := by omega
      rw [max_eq_left (le_of_lt this)]
      rfl
    · have : 0 ≤ deadline - now := by omega
      rw [max_eq_right this]
  · intro h hd
    unfold epoll_timeout_ms
    simp [h, hd]
  · intro it s hw
    unfold main_loop_iteration
    simp only [hw, Bool.not_true, Bool.false_eq_true, if_false]
    split <;> simp
  · intro it s hw
    unfold main_loop_iteration
    simp only [hw, Bool.not_false, if_true]
    split <;> simp

/-- A restart due in 5 seconds and no command left: the timeout is 5000 ms. -/
theorem epoll_timeout_ms_value_witness :
    epoll_timeout_ms 1700000005 1700000000 false
      = max 0 ((1700000005 : Int) - 1700000000) * 1000 :=
  (epoll_timeout_ms_value 1700000005 1700000000 false).2.2.1 rfl (by decide) (by decide)
    (by decide)

theorem main_loop_iteration_steps (it : Iteration) (s : MainState) :
    ∃ timeout : Int, ∃ tail : List LoopStep,
      (tail = [.epoll_wait timeout] ∨ tail = [.epoll_wait timeout, .callback]) ∧
      (main_loop_iteration it s).2
        = (if (s.globals.waiting_for_exec.isSome || s.globals.waiting_for_prop.isSome) = true
            then [] else [.ExecuteOneCommand s.globals, .restart_processes]) ++ tail := by
  unfold main_loop_iteration
  by_cases hw : (s.globals.waiting_for_exec.isSome || s.globals.waiting_for_prop.isSome) = true
  · simp only [hw, Bool.not_true, Bool.false_eq_true, if_false, if_true]
    split
    · exact ⟨_, _, Or.inr rfl, rfl⟩
    · exact ⟨_, _, Or.inl rfl, rfl⟩
  · have hw2 : (s.globals.waiting_for_exec.isSome || s.globals.waiting_for_prop.isSome)
        = false := by simpa using hw
    simp only [hw2, Bool.not_false, if_true, Bool.false_eq_true, if_false]
    split
    · exact ⟨_, _, Or.inr rfl, rfl⟩
    · exact ⟨_, _, Or.inl rfl, rfl⟩

theorem waits_inactive_iff (g : InitState) :
    (g.waiting_for_exec.isSome || g.waiting_for_prop.isSome) = false
      ↔ g.waiting_for_exec = none ∧ g.waiting_for_prop = none := by
  cases g.waiting_for_exec <;> cases g.waiting_for_prop <;> simp

theorem main_loop_execute_guarded (its : List Iteration) :
    ∀ (s : MainState) (g : InitState),
      LoopStep.ExecuteOneCommand g ∈ (main_loop its s).2 →
      g.waiting_for_exec = none ∧ g.waiting_for_prop = none := by
  induction its with
  | nil => intro s g h; simp [main_loop] at h
  | cons it its ih =>
    intro s g h
    unfold main_loop at h
    obtain ⟨timeout, tail, htail, hsteps⟩ := main_loop_iteration_steps it s
    generalize main_loop_iteration it s = r at h hsteps
    obtain ⟨s1, steps⟩ := r
    dsimp only at h hsteps
    have hrest := ih s1 g
    generalize main_loop its s1 = r2 at h hrest
    obtain ⟨s2, steps2⟩ := r2
    dsimp only at h hrest
    rcases List.mem_append.1 h with hm | hm
    · rw [hsteps] at hm
      by_cases hw : (s.globals.waiting_for_exec.isSome || s.globals.waiting_for_prop.isSome)
          = true
      · rw [if_pos hw, List.nil_append] at hm
        rcases htail with ht | ht <;> rw [ht] at hm <;> simp at hm
      · rw [if_neg hw] at hm
        have hg : g = s.globals := by
          rcases htail with ht | ht <;> rw [ht] at hm <;> simpa using hm
        rw [hg]
        exact (waits_inactive_iff s.globals).1 (by simpa using hw)
    · exact hrest hm

/-- C20: in every loop iteration `ExecuteOneCommand` and the restart pass are run
if and only if neither `waiting_for_exec` nor `waiting_for_prop` is active; an
iteration makes at most one `ExecuteOneCommand` call and exactly one
`epoll_wait` call; so over any number of iterations from any state, every
`ExecuteOneCommand` call is made with both waits inactive. -/
theorem main_loop_wait_guards :
    (∀ (it : Iteration) (s : MainState),
      ((∃ g, LoopStep.ExecuteOneCommand g ∈ (main_loop_iteration it s).2)
        ↔ (s.globals.waiting_for_exec = none ∧ s.globals.waiting_for_prop = none)) ∧
      (LoopStep.restart_processes ∈ (main_loop_iteration it s).2
        ↔ (s.globals.waiting_for_exec = none ∧ s.globals.waiting_for_prop = none)) ∧
      (main_loop_iteration it s).2.countP LoopStep.is_execute ≤ 1 ∧
      (main_loop_iteration it s).2.countP LoopStep.is_epoll_wait = 1) ∧
    (∀ (its : List Iteration) (s : MainState) (g : InitState),
      LoopStep.ExecuteOneCommand g ∈ (main_loop its s).2 →
      g.waiting_for_exec = none ∧ g.waiting_for_prop = none) := by
  refine ⟨?_, main_loop_execute_guarded⟩
  intro it s
  obtain ⟨timeout, tail, htail, hsteps⟩ := main_loop_iteration_steps it s
  rw [hsteps]
  by_cases hw : (s.globals.waiting_for_exec.isSome || s.globals.waiting_for_prop.isSome) = true
  · have hno : ¬ (s.globals.waiting_for_exec = none ∧ s.globals.waiting_for_prop = none) := by
      intro h
      rw [← waits_inactive_iff, hw] at h
      cases h
    rw [if_pos hw, List.nil_append]
    rcases htail with ht | ht <;> rw [ht] <;>
      simp [hno, List.countP_cons, LoopStep.is_execute, LoopStep.is_epoll_wait]
  · have hyes : s.globals.waiting_for_exec = none ∧ s.globals.waiting_for_prop = none :=
      (waits_inactive_iff s.globals).1 (by simpa using hw)
    rw [if_neg hw]
    rcases htail with ht | ht <;> rw [ht] <;>
      simp [hyes, List.countP_cons, LoopStep.is_execute, LoopStep.is_epoll_wait]

/-- C20, witness: an iteration entered while a property wait is active, whose
`epoll_wait` dispatches the broadcast that ends the wait, followed by an
iteration that executes a command. -/
theorem main_loop_wait_guards_witness :
    (main_loop
      [ { ExecuteOneCommand := id, restart_processes := 0, HasMoreCommands := true, time := 0,
          epoll_wait := fun _ => some (property_changed "sys.boot".toList "1".toList) },
        { ExecuteOneCommand := id, restart_processes := 0, HasMoreCommands := false, time := 0,
          epoll_wait := fun _ => none } ]
      { globals := { InitState.initial with
                     waiting_for_prop := some ⟨3⟩
                     wait_prop_name := "sys.boot".toList
                     wait_prop_value := "1".toList }
        process_needs_restart_at := 0 }).2
      = [.epoll_wait 0, .callback, .ExecuteOneCommand InitState.initial, .restart_processes,
         .epoll_wait (-1)] ∧
    InitState.initial.waiting_for_exec = none ∧ InitState.initial.waiting_for_prop = none :=
  ⟨by decide,
    main_loop_wait_guards.2
      [ { ExecuteOneCommand := id, restart_processes := 0, HasMoreCommands := true, time := 0,
          epoll_wait := fun _ => some (property_changed "sys.boot".toList "1".toList) },
        { ExecuteOneCommand := id, restart_processes := 0, HasMoreCommands := false, time := 0,
          epoll_wait := fun _ => none } ]
      { globals := { InitState.initial with
                     waiting_for_prop := some ⟨3⟩
                     wait_prop_name := "sys.boot".toList
                     wait_prop_value := "1".toList }
        process_needs_restart_at := 0 }
      InitState.initial (by decide)⟩

/-! ## The claims on the device tree, the enforce mode and the waits -/

theorem start_waiting_for_property_active (property_get : CStr → CStr) (now : Nat)
    (n v : CStr) (s : InitState) (h : s.waiting_for_prop.isSome = true) :
    start_waiting_for_property property_get now n v s = (false, s) := by
  unfold start_waiting_for_property
  rw [if_pos h]

theorem start_waiting_for_exec_active (now : Nat) (s : InitState)
    (h : s.waiting_for_exec.isSome = true) :
    start_waiting_for_exec now s = (false, s) := by
  unfold start_waiting_for_exec
  rw [if_pos h]

theorem request_keeps_prop_wait (c : InitCall) (s : InitState) (hc : c.is_request = true)
    (h : s.waiting_for_prop.isSome = true) :
    (c.run s).waiting_for_prop = s.waiting_for_prop ∧
    (c.run s).wait_prop_name = s.wait_prop_name ∧
    (c.run s).wait_prop_value = s.wait_prop_value := by
  cases c with
  | start_waiting_for_exec now =>
    simp only [InitCall.run, start_waiting_for_exec]
    split_ifs <;> exact ⟨rfl, rfl, rfl⟩
  | start_waiting_for_property cur now name value =>
    simp only [InitCall.run]
    rw [start_waiting_for_property_active _ _ _ _ _ h]
    exact ⟨rfl, rfl, rfl⟩
  | stop_waiting_for_exec => cases hc
  | property_changed name value => cases hc
  | property_enable_triggers_action args => cases hc

theorem request_keeps_exec_wait (c : InitCall) (s : InitState) (hc : c.is_request = true)
    (h : s.waiting_for_exec.isSome = true) :
    (c.run s).waiting_for_exec = s.waiting_for_exec := by
  cases c with
  | start_waiting_for_exec now =>
    simp only [InitCall.run]
    rw [start_waiting_for_exec_active _ _ h]
  | start_waiting_for_property cur now name value =>
    simp only [InitCall.run, start_waiting_for_property]
    split_ifs <;> rfl
  | stop_waiting_for_exec => cases hc
  | property_changed name value => cases hc
  | property_enable_triggers_action args => cases hc

theorem requests_keep_waits (cs : List InitCall) :
    ∀ s : InitState, (∀ c ∈ cs, c.is_request = true) →
      (s.waiting_for_prop.isSome = true →
        (run_calls cs s).waiting_for_prop = s.waiting_for_prop ∧
        (run_calls cs s).wait_prop_name = s.wait_prop_name ∧
        (run_calls cs s).wait_prop_value = s.wait_prop_value) ∧
      (s.waiting_for_exec.isSome = true →
        (run_calls cs s).waiting_for_exec = s.waiting_for_exec) := by
  induction cs with
  | nil => intro s _; exact ⟨fun _ => ⟨rfl, rfl, rfl⟩, fun _ => rfl⟩
  | cons c cs ih =>
    intro s hcs
    have hc : c.is_request = true := hcs c (List.mem_cons_self _ _)
    have hrest := ih (c.run s) (fun d hd => hcs d (List.mem_cons_of_mem _ hd))
    simp only [run_calls, List.foldl_cons] at hrest ⊢
    constructor
    · intro h
      obtain ⟨k1, k2, k3⟩ := request_keeps_prop_wait c s hc h
      obtain ⟨r1, r2, r3⟩ := hrest.1 (by rw [k1]; exact h)
      exact ⟨r1.trans k1, r2.trans k2, r3.trans k3⟩
    · intro h
      have k := request_keeps_exec_wait c s hc h
      exact (hrest.2 (by rw [k]; exact h)).trans k

/-- C24: `start_waiting_for_property` returns false and leaves `wait_prop_name`,
`wait_prop_value` and the timer (the whole state) unchanged when a property wait
is already active; `start_waiting_for_exec` returns false and changes nothing
when an exec wait is already active; `stop_waiting_for_exec` makes the exec wait
inactive, changes nothing else, and is a no-op when none is active.  So through
any series of further requests a pending wait keeps its timer, name and value. -/
theorem pending_wait_not_overwritten :
    (∀ (property_get : CStr → CStr) (now : Nat) (n v : CStr) (s : InitState),
      s.waiting_for_prop.isSome = true →
      start_waiting_for_property property_get now n v s = (false, s)) ∧
    (∀ (now : Nat) (s : InitState), s.waiting_for_exec.isSome = true →
      start_waiting_for_exec now s = (false, s)) ∧
    (∀ s : InitState, stop_waiting_for_exec s = { s with waiting_for_exec := none }) ∧
    (∀ s : InitState, s.waiting_for_exec = none → stop_waiting_for_exec s = s) ∧
    (∀ (cs : List InitCall) (s : InitState), (∀ c ∈ cs, c.is_request = true) →
      (s.waiting_for_prop.isSome = true →
        (run_calls cs s).waiting_for_prop = s.waiting_for_prop ∧
        (run_calls cs s).wait_prop_name = s.wait_prop_name ∧
        (run_calls cs s).wait_prop_value = s.wait_prop_value) ∧
      (s.waiting_for_exec.isSome = true →
        (run_calls cs s).waiting_for_exec = s.waiting_for_exec)) := by
  refine ⟨start_waiting_for_property_active, start_waiting_for_exec_active, ?_, ?_,
    fun cs s h => requests_keep_waits cs s h⟩
  · intro s
    unfold stop_waiting_for_exec
    split_ifs with h
    · rfl
    · have hn : s.waiting_for_exec = none := by
        cases hw : s.waiting_for_exec with
        | none => rfl
        | some t => rw [hw] at h; exact absurd rfl h
      cases s
      simp only at hn
      subst hn
      rfl
  · intro s h
    unfold stop_waiting_for_exec
    rw [if_neg (by rw [h]; simp)]

/-- C24, witness: a second property request while the wait for `sys.boot = 1` is
pending. -/
theorem pending_wait_not_overwritten_witness :
    start_waiting_for_property (fun _ => []) 9 "sys.other".toList "2".toList
        { InitState.initial with
          waiting_for_prop := some ⟨3⟩
          wait_prop_name := "sys.boot".toList
          wait_prop_value := "1".toList }
      = (false, { InitState.initial with
          waiting_for_prop := some ⟨3⟩
          wait_prop_name := "sys.boot".toList
          wait_prop_value := "1".toList }) :=
  pending_wait_not_overwritten.1 (fun _ => []) 9 "sys.other".toList "2".toList _ rfl

theorem is_dt_compatible_nonempty (body : CStr) (c : Char) :
    is_dt_compatible (some (body ++ [c]))
      = some (decide (body = "android,firmware".toList)) := by
  unfold is_dt_compatible
  dsimp only
  rw [if_neg (by simp), List.dropLast_concat]

/-- What `is_dt_compatible` does where it is defined: an unreadable entry gives
false, and a content of at least one character gives true exactly when the
content without its last character, whatever that character is, is the literal
`android,firmware`. -/
theorem is_dt_compatible_defined :
    is_dt_compatible none = some false ∧
    (∀ (body : CStr) (c : Char),
      is_dt_compatible (some (body ++ [c])) = some true ↔ body = "android,firmware".toList) := by
  refine ⟨rfl, ?_⟩
  intro body c
  rw [is_dt_compatible_nonempty]
  simp

/-- C23, the code at the failing inputs: on an empty `compatible` entry
`is_dt_compatible` does not return, where the claim has it defined, with the
value false; and on the content `android,firmwareX`, which has no NUL, it
returns true, the character removed before the comparison being `X`. -/
theorem is_dt_compatible_unchecked_trim :
    is_dt_compatible (some []) = none ∧
    is_dt_compatible (some "android,firmwareX".toList) = some true ∧
    "android,firmwareX".toList ≠ "android,firmware".toList ++ [Char.ofNat 0] ∧
    is_dt_compatible (some ("android,firmware".toList ++ [Char.ofNat 0])) = some true := by
  decide

theorem fold_items_pairs {σ : Type} (fn : CStr → CStr → Bool → σ → σ) (b : Bool)
    (items : List CStr) :
    ∀ (acc : List (CStr × CStr)) (s : σ),
      items.foldl
          (fun t item =>
            match item.splitOn '=' with
            | [key, value] => fn key value b t
            | _ => t)
          (acc.foldl (fun t p => fn p.1 p.2 b t) s)
        = (items.foldl
            (fun a item =>
              match item.splitOn '=' with
              | [key, value] => a ++ [(key, value)]
              | _ => a)
            acc).foldl (fun t p => fn p.1 p.2 b t) s := by
  induction items with
  | nil => intro acc s; rfl
  | cons item items ih =>
    intro acc s
    simp only [List.foldl_cons]
    rcases h : item.splitOn '=' with _ | ⟨k, _ | ⟨v, _ | ⟨x, l⟩⟩⟩
    · exact ih acc s
    · exact ih acc s
    · have := ih (acc ++ [(k, v)]) s
      simp only [List.foldl_append, List.foldl_cons, List.foldl_nil] at this
      exact this
    · exact ih acc s

/-- The callback of `import_kernel_cmdline` is applied to the pairs of the line
in order. -/
theorem import_kernel_cmdline_pairs {σ : Type} (cmdline : CStr) (b : Bool)
    (fn : CStr → CStr → Bool → σ → σ) (s : σ) :
    import_kernel_cmdline cmdline b fn s
      = (cmdline_pairs cmdline).foldl (fun t p => fn p.1 p.2 b t) s := by
  unfold cmdline_pairs import_kernel_cmdline
  exact fold_items_pairs fn b (cmdline.splitOn ' ') [] s

theorem status_fold (pairs : List (CStr × CStr)) :
    ∀ init : selinux_enforcing_status,
      pairs.foldl
          (fun status p =>
            if p.1 = "androidboot.selinux".toList ∧ p.2 = "permissive".toList then
              selinux_enforcing_status.SELINUX_PERMISSIVE
            else status)
          init = .SELINUX_PERMISSIVE
        ↔ init = .SELINUX_PERMISSIVE ∨
          ("androidboot.selinux".toList, "permissive".toList) ∈ pairs := by
  induction pairs with
  | nil => intro init; simp
  | cons p pairs ih =>
    intro init
    rw [List.foldl_cons, ih, List.mem_cons]
    by_cases hp : p.1 = "androidboot.selinux".toList ∧ p.2 = "permissive".toList
    · rw [if_pos hp]
      have hpe : p = ("androidboot.selinux".toList, "permissive".toList) :=
        Prod.ext hp.1 hp.2
      constructor
      · intro _; exact Or.inr (Or.inl hpe.symm)
      · intro _; exact Or.inl rfl
    · rw [if_neg hp]
      constructor
      · rintro (h | h)
        · exact Or.inl h
        · exact Or.inr (Or.inr h)
      · rintro (h | h | h)
        · exact Or.inl h
        · exfalso
          apply hp
          rw [← h]
          exact ⟨rfl, rfl⟩
        · exact Or.inr h

theorem selinux_status_permissive_iff (cmdline : CStr) :
    selinux_status_from_cmdline cmdline = .SELINUX_PERMISSIVE
      ↔ ("androidboot.selinux".toList, "permissive".toList) ∈ cmdline_pairs cmdline := by
  unfold selinux_status_from_cmdline
  rw [import_kernel_cmdline_pairs, status_fold]
  constructor
  · rintro (h | h)
    · cases h
    · exact h
  · intro h; exact Or.inr h

/-- C22: for every kernel command line, `selinux_is_enforcing` returns false if
and only if the build allows permissive mode and the command line carries the
pair `androidboot.selinux=permissive`; when the build flag does not allow
permissive mode it returns true for every command line; and `selinux_initialize`
calls `security_setenforce` only in the kernel domain, only with that result,
and only when the kernel's current state (`security_getenforce() == 1`) differs
from it, which it then does once the policy is loaded. -/
theorem selinux_enforce_mode :
    (∀ (allow : Bool) (cmdline : CStr),
      selinux_is_enforcing allow cmdline = false
        ↔ (allow = true ∧
            ("androidboot.selinux".toList, "permissive".toList) ∈ cmdline_pairs cmdline)) ∧
    (∀ cmdline : CStr, selinux_is_enforcing false cmdline = true) ∧
    (∀ (w : SelinuxWorld) (in_kernel_domain value : Bool),
      SelinuxStep.security_setenforce value ∈ selinux_initialize w in_kernel_domain →
      in_kernel_domain = true ∧
      value = selinux_is_enforcing w.ALLOW_PERMISSIVE_SELINUX w.cmdline ∧
      decide (w.security_getenforce = 1) ≠ value) ∧
    (∀ w : SelinuxWorld, (selinux_load_policy w.policy).1 = true →
      decide (w.security_getenforce = 1)
        ≠ selinux_is_enforcing w.ALLOW_PERMISSIVE_SELINUX w.cmdline →
      SelinuxStep.security_setenforce
          (selinux_is_enforcing w.ALLOW_PERMISSIVE_SELINUX w.cmdline)
        ∈ selinux_initialize w true) := by
  refine ⟨?_, fun _ => rfl, ?_, ?_⟩
  · intro allow cmdline
    unfold selinux_is_enforcing
    cases allow with
    | false => simp
    | true =>
      rw [if_pos rfl, ← selinux_status_permissive_iff]
      cases selinux_status_from_cmdline cmdline <;> simp
  · intro w in_kernel_domain value hmem
    unfold selinux_initialize at hmem
    cases in_kernel_domain with
    | false => simp at hmem
    | true =>
      rw [if_pos rfl] at hmem
      generalize selinux_load_policy w.policy = r at hmem
      obtain ⟨ok, calls⟩ := r
      cases ok with
      | false => simp at hmem
      | true =>
        dsimp only at hmem
        by_cases hd : decide (w.security_getenforce = 1)
            = selinux_is_enforcing w.ALLOW_PERMISSIVE_SELINUX w.cmdline
        · exfalso
          simp only [ne_eq, hd, not_true_eq_false, if_false, false_and, List.append_nil] at hmem
          split_ifs at hmem <;> simp at hmem
        · refine ⟨rfl, ?_⟩
          simp only [ne_eq, hd, not_false_eq_true, if_true, true_and] at hmem
          have hv : value = selinux_is_enforcing w.ALLOW_PERMISSIVE_SELINUX w.cmdline := by
            split_ifs at hmem <;> simpa using hmem
          exact ⟨hv, by rw [hv]; exact hd⟩
  · intro w hok hd
    unfold selinux_initialize
    rw [if_pos rfl]
    generalize selinux_load_policy w.policy = r at hok
    obtain ⟨ok, calls⟩ := r
    dsimp only at hok
    subst hok
    dsimp only
    simp only [ne_eq, hd, not_false_eq_true, if_true, true_and]
    split_ifs <;> simp

/-- C22, witness: a build that allows permissive mode and a command line with
`androidboot.selinux=permissive`. -/
theorem selinux_enforce_mode_witness :
    selinux_is_enforcing true "androidboot.selinux=permissive".toList = false :=
  (selinux_enforce_mode.1 true "androidboot.selinux=permissive".toList).2
    ⟨rfl, by decide⟩

theorem import_kernel_nv_after (key value : CStr) (b : Bool) (pre : List (CStr × CStr))
    (s : ImportState) :
    import_kernel_nv key value b (s.after pre) = (import_kernel_nv key value b s).after pre := by
  unfold import_kernel_nv ImportState.after
  split_ifs <;> simp only [List.append_assoc]

theorem import_kernel_nv_fold_after (b : Bool) (pre : List (CStr × CStr))
    (pairs : List (CStr × CStr)) :
    ∀ s : ImportState,
      pairs.foldl (fun t p => import_kernel_nv p.1 p.2 b t) (s.after pre)
        = (pairs.foldl (fun t p => import_kernel_nv p.1 p.2 b t) s).after pre := by
  induction pairs with
  | nil => intro s; rfl
  | cons p pairs ih =>
    intro s
    simp only [List.foldl_cons]
    rw [import_kernel_nv_after, ih]

theorem process_kernel_cmdline_after (cmdline : CStr) (pre : List (CStr × CStr))
    (s : ImportState) :
    process_kernel_cmdline cmdline (s.after pre) = (process_kernel_cmdline cmdline s).after pre := by
  unfold process_kernel_cmdline
  simp only [import_kernel_cmdline_pairs, import_kernel_nv_fold_after]
  have hq : ∀ t : ImportState, (t.after pre).qemu = t.qemu := fun _ => rfl
  rw [hq]
  split_ifs
  · rfl
  · rfl

theorem import_kernel_nv_grows (key value : CStr) (b : Bool) (s : ImportState)
    (c : CStr × CStr) (h : c ∈ s.property_set_calls) :
    c ∈ (import_kernel_nv key value b s).property_set_calls := by
  unfold import_kernel_nv
  split_ifs
  · exact h
  · exact List.mem_append_left _ h
  · exact h
  · exact List.mem_append_left _ h
  · exact h

theorem import_kernel_nv_fold_grows (b : Bool) (pairs : List (CStr × CStr))
    (c : CStr × CStr) :
    ∀ s : ImportState, c ∈ s.property_set_calls →
      c ∈ (pairs.foldl (fun t p => import_kernel_nv p.1 p.2 b t) s).property_set_calls := by
  induction pairs with
  | nil => intro s h; exact h
  | cons p pairs ih =>
    intro s h
    simp only [List.foldl_cons]
    exact ih _ (import_kernel_nv_grows _ _ _ _ _ h)

theorem import_kernel_nv_androidboot (key value : CStr) (s : ImportState) :
    ("ro.boot.".toList ++ key, value)
      ∈ (import_kernel_nv ("androidboot.".toList ++ key) value false s).property_set_calls := by
  unfold import_kernel_nv
  rw [if_neg (androidboot_ne_nil key), if_neg (by decide),
    if_neg (androidboot_ne_qemu key), if_pos (StartsWith_androidboot key)]
  have hdrop : ("androidboot.".toList ++ key).drop 12 = key := List.drop_left' (by decide)
  rw [hdrop]
  exact List.mem_append_right _ (List.mem_singleton.2 rfl)

theorem first_pass_sets (key value : CStr) (pairs : List (CStr × CStr)) :
    ∀ s : ImportState, ("androidboot.".toList ++ key, value) ∈ pairs →
      ("ro.boot.".toList ++ key, value)
        ∈ (pairs.foldl (fun t p => import_kernel_nv p.1 p.2 false t) s).property_set_calls := by
  induction pairs with
  | nil => intro s h; cases h
  | cons p pairs ih =>
    intro s h
    simp only [List.foldl_cons]
    rcases List.mem_cons.1 h with hp | hp
    · rw [← hp]
      exact import_kernel_nv_fold_grows _ _ _ _ (import_kernel_nv_androidboot key value s)
    · exact ih _ hp

/-- Every pair `androidboot.<key>=<value>` of the command line makes
`process_kernel_cmdline` set `ro.boot.<key>` to that value. -/
theorem process_kernel_cmdline_sets (cmdline key value : CStr) (s : ImportState)
    (h : ("androidboot.".toList ++ key, value) ∈ cmdline_pairs cmdline) :
    ("ro.boot.".toList ++ key, value)
      ∈ (process_kernel_cmdline cmdline s).property_set_calls := by
  unfold process_kernel_cmdline
  simp only [import_kernel_cmdline_pairs]
  have h1 := first_pass_sets key value (cmdline_pairs cmdline) s h
  split_ifs
  · exact import_kernel_nv_fold_grows _ _ _ _ h1
  · exact h1

theorem process_kernel_dt_entry_calls (dt : DeviceTree) (entries : List dirent) :
    ∀ s : ImportState,
      entries.foldl (process_kernel_dt_entry dt) s
        = { s with property_set_calls :=
              s.property_set_calls ++ device_tree_properties dt entries } := by
  induction entries with
  | nil =>
    intro s
    simp [device_tree_properties]
  | cons dp entries ih =>
    intro s
    rw [List.foldl_cons, ih]
    unfold process_kernel_dt_entry device_tree_properties
    cases h1 : dp.d_type_is_reg <;>
      cases h2 : decide (dp.d_name = "compatible".toList) <;>
      cases h3 : decide (dp.d_name = "name".toList) <;>
      simp only [List.filter_cons, h1, h2, h3, Bool.not_true, Bool.not_false, Bool.or_true,
        Bool.or_false, Bool.true_or, Bool.and_true, Bool.and_false, Bool.false_and,
        Bool.true_and, Bool.false_eq_true, if_true, if_false, List.map_cons, List.append_assoc,
        List.singleton_append, Bool.or_self, Bool.and_self]

theorem first_set_append (a b : List (CStr × CStr)) (name v : CStr)
    (h : first_set a name = some v) : first_set (a ++ b) name = some v := by
  unfold first_set at h ⊢
  rw [List.find?_append]
  cases hf : List.find? (fun c => decide (c.1 = name)) a with
  | none => rw [hf] at h; cases h
  | some c => rw [hf] at h; exact h

/-- C21, counterexample: with the value `dtboard` for `hardware` in the device
tree and `androidboot.hardware=cmdboard` on the command line, the second stage
sets `ro.boot.hardware` first to the device-tree value and after that to the
command-line value: the device-tree import is the first of the two, not the
second. -/
theorem second_stage_import_dt_is_first :
    second_stage_import example_device_tree "androidboot.hardware=cmdboard".toList
        ImportState.initial
      = some { qemu := [],
               property_set_calls :=
                 [("ro.boot.hardware".toList, "dtboard".toList),
                  ("ro.boot.hardware".toList, "cmdboard".toList)] } := by
  decide

/-- C21, as amended: in the second stage the device-tree import is processed
first, before the kernel command-line import: the `property_set` calls of the
device tree (one `ro.boot.<file name>` per regular file other than `compatible`
and `name`) all come before those of the command line, so that for every key
given both in the device tree and on the command line the first value set for
`ro.boot.<key>` is the device-tree value, and the command-line value is set
after it. -/
theorem second_stage_import_order (dt : DeviceTree) (cmdline : CStr) (entries : List dirent)
    (hcompat : is_dt_compatible dt.compatible = some true)
    (hdir : dt.opendir = some entries) :
    second_stage_import dt cmdline ImportState.initial
      = some
        { qemu := (process_kernel_cmdline cmdline ImportState.initial).qemu
          property_set_calls :=
            device_tree_properties dt entries ++
              (process_kernel_cmdline cmdline ImportState.initial).property_set_calls } ∧
    (∀ name v : CStr, first_set (device_tree_properties dt entries) name = some v →
      first_set
        (device_tree_properties dt entries ++
          (process_kernel_cmdline cmdline ImportState.initial).property_set_calls) name
        = some v) ∧
    (∀ key value : CStr, ("androidboot.".toList ++ key, value) ∈ cmdline_pairs cmdline →
      ("ro.boot.".toList ++ key, value)
        ∈ (process_kernel_cmdline cmdline ImportState.initial).property_set_calls) := by
  refine ⟨?_, fun name v h => first_set_append _ _ name v h,
    fun key value h => process_kernel_cmdline_sets cmdline key value _ h⟩
  unfold second_stage_import process_kernel_dt
  rw [hcompat]
  dsimp only
  rw [hdir]
  dsimp only
  rw [process_kernel_dt_entry_calls]
  have hafter : ({ ImportState.initial with
      property_set_calls :=
        ImportState.initial.property_set_calls ++ device_tree_properties dt entries }
        : ImportState)
      = ImportState.initial.after (device_tree_properties dt entries) := by
    unfold ImportState.after ImportState.initial
    simp
  rw [hafter, process_kernel_cmdline_after]
  rfl

/-- C21, witness: the device tree with `hardware = dtboard` and the command line
`androidboot.hardware=cmdboard`. -/
theorem second_stage_import_order_witness :
    first_set
        (device_tree_properties example_device_tree
            [ { d_type_is_reg := true, d_name := "compatible".toList },
              { d_type_is_reg := true, d_name := "name".toList },
              { d_type_is_reg := false, d_name := "fstab".toList },
              { d_type_is_reg := true, d_name := "hardware".toList } ] ++
          (process_kernel_cmdline "androidboot.hardware=cmdboard".toList
            ImportState.initial).property_set_calls)
        "ro.boot.hardware".toList
      = some "dtboard".toList :=
  (second_stage_import_order example_device_tree "androidboot.hardware=cmdboard".toList _
    (by decide) rfl).2.1 "ro.boot.hardware".toList "dtboard".toList (by decide)

end Init
